import Mathlib

/-!
Verification of the pydance input-plumbing subsystem (`ui.py`).

This file shallowly embeds the Python classes `EventValve`, `EventForkValve`,
`EventPlumbing`, the visitor classes, `Controller` and the relevant parts of
`UI` as executable Lean definitions, and proves the claims about them.

Modelling conventions:
  * Python `int` is `Int`; the bit operations of the source are applied to
    non-negative operands only and are expressed arithmetically: `pid & 3`
    is `pid % 4`, `pid & ~3` is `pid - pid % 4`, `pid >> 8` is `pid / 256`
    and `joy << 8` is `joy * 2 ^ 8` (all of which agree with Python's
    semantics for the operands involved).
  * The Python object heap is explicit: `EventValve` / `EventForkValve` /
    `deque` objects live in arenas inside a `Heap` and are referenced by index,
    so aliasing and object identity (`x in done`, `is`-like comparisons of
    container entries) are faithful.
  * Python exceptions that the source catches (`KeyError`/`IndexError` in
    `EventPlumbing.plus`/`minus`/`add`) are modelled via `Option` lookups that
    the embedding handles exactly where the `except` clauses do; exceptions
    that would propagate (bad list index in `UI.pump`) make the embedding
    return `none`.
  * The float thresholds of the learning classifier are embedded as the exact
    rationals 0.85 and 0.5; all concrete scenarios proved here stay far from
    the thresholds, where double rounding cannot change a comparison.
-/

set_option maxRecDepth 20000

namespace PydanceUI

/-! ### Constants from ui.py -/

-- (PASS, CANCEL, UP, UPLEFT, LEFT, DOWNLEFT, DOWN, DOWNRIGHT,
--  RIGHT, UPRIGHT, CENTER, OPTIONS, RANDOM, SCREENSHOT,
--  CONFIRM, PGUP, PGDN, FULLSCREEN, SORT, QUIT) = range(20)
def PASS : Int := 0
def CANCEL : Int := 1
def UP : Int := 2
def UPLEFT : Int := 3
def LEFT : Int := 4
def DOWNLEFT : Int := 5
def DOWN : Int := 6
def DOWNRIGHT : Int := 7
def RIGHT : Int := 8
def UPRIGHT : Int := 9
def CENTER : Int := 10
def OPTIONS : Int := 11
def RANDOM : Int := 12
def SCREENSHOT : Int := 13
def CONFIRM : Int := 14
def PGUP : Int := 15
def PGDN : Int := 16
def FULLSCREEN : Int := 17
def SORT : Int := 18
def QUIT : Int := 19

def MAX_PLAYERS : Int := 4
def PLAYERS_MASK : Int := MAX_PLAYERS - 1
def MAX_BUTTONS : Nat := 32
def GENERIC_BUTTON : Int := 64
def GENERIC_BUTTON_SHIFTER : Nat := 8
def MIN_LEARN_GENERIC_BUTTON_COUNT : Nat := 5
-- float .85 and .5, embedded as exact rationals
def LEARN_GENERIC_BUTTON_DIRECTION : ℚ := 85 / 100
def LEARN_GENERIC_BUTTON_INDEPENDENT : ℚ := 5 / 10

def REPEAT_INITIAL_DELAY : Int := 250
def REPEAT_DELAY : Int := 80

-- REPEATABLE = frozenset(((-1,UP),(-1,DOWN),(-1,LEFT),(-1,RIGHT), (0,UP),...,(3,RIGHT)))
def REPEATABLE : List (Int × Int) :=
  [(-1, UP), (-1, DOWN), (-1, LEFT), (-1, RIGHT),
   (0, UP), (0, DOWN), (0, LEFT), (0, RIGHT),
   (1, UP), (1, DOWN), (1, LEFT), (1, RIGHT),
   (2, UP), (2, DOWN), (2, LEFT), (2, RIGHT),
   (3, UP), (3, DOWN), (3, LEFT), (3, RIGHT)]

/-! ### EventValve

The Python object has fields `open`, `closed`, `evlist`, `pressure`,
`start_pressure`, `enabled`.  `open`/`closed` are named `vopen`/`vclosed`
here because `open` is a Lean keyword.  `evlist` is a reference to a shared
deque object; at this level we carry the dereferenced queue alongside the
valve, at the heap level (below) the field `evq` holds the queue's arena id.
-/

structure ValveData where
  vopen : Int × Int
  vclosed : Int × Int
  evq : Nat
  pressure : Int
  start_pressure : Int
  enabled : Bool
deriving DecidableEq, Repr

/-- `EventValve.__init__(self, pid, evid, evlist, start_pressure)` with
`evlist` given as the queue arena id `evq`. -/
def mkValve (pid evid : Int) (evq : Nat) (start_pressure : Int) : ValveData :=
  { vopen := (pid, evid)
    vclosed := (pid, -evid)
    evq := evq
    pressure := start_pressure
    start_pressure := start_pressure
    enabled := true }

/-- `EventValve.plus`: if enabled and pressure == 0, append `open` to the
queue; always increment pressure. -/
def EventValve.plus (v : ValveData) (q : List (Int × Int)) :
    ValveData × List (Int × Int) :=
  let q' := if v.enabled ∧ v.pressure = 0 then q ++ [v.vopen] else q
  ({ v with pressure := v.pressure + 1 }, q')

/-- `EventValve.minus`: decrement pressure; if enabled and pressure == 0
afterwards, append `closed` to the queue. -/
def EventValve.minus (v : ValveData) (q : List (Int × Int)) :
    ValveData × List (Int × Int) :=
  let v' := { v with pressure := v.pressure - 1 }
  let q' := if v'.enabled ∧ v'.pressure = 0 then q ++ [v'.vclosed] else q
  (v', q')

/-- `EventValve.reset`: set pressure to start pressure. -/
def EventValve.reset (v : ValveData) : ValveData :=
  { v with pressure := v.start_pressure }

/-! ### C1: exact behaviour of a single plus()/minus() call -/

/-- C1. `v.plus()` appends exactly `v.open` iff `v.enabled ∧ v.pressure = 0`
held before the call and always increments `pressure` by exactly 1;
`v.minus()` decrements `pressure` by exactly 1 and appends exactly
`v.closed` iff `v.enabled` holds and the decremented pressure is 0.
Nothing else is appended and no other field changes. -/
theorem C1_valve_plus_minus_exact (v : ValveData) (q : List (Int × Int)) :
    ((EventValve.plus v q).1.pressure = v.pressure + 1 ∧
     (EventValve.plus v q).2 =
       (if v.enabled = true ∧ v.pressure = 0 then q ++ [v.vopen] else q) ∧
     (EventValve.plus v q).1.vopen = v.vopen ∧
     (EventValve.plus v q).1.vclosed = v.vclosed ∧
     (EventValve.plus v q).1.evq = v.evq ∧
     (EventValve.plus v q).1.start_pressure = v.start_pressure ∧
     (EventValve.plus v q).1.enabled = v.enabled) ∧
    ((EventValve.minus v q).1.pressure = v.pressure - 1 ∧
     (EventValve.minus v q).2 =
       (if v.enabled = true ∧ v.pressure - 1 = 0 then q ++ [v.vclosed] else q) ∧
     (EventValve.minus v q).1.vopen = v.vopen ∧
     (EventValve.minus v q).1.vclosed = v.vclosed ∧
     (EventValve.minus v q).1.evq = v.evq ∧
     (EventValve.minus v q).1.start_pressure = v.start_pressure ∧
     (EventValve.minus v q).1.enabled = v.enabled) := by
  constructor
  · refine ⟨rfl, ?_, rfl, rfl, rfl, rfl, rfl⟩
    simp only [EventValve.plus]
  · refine ⟨rfl, ?_, rfl, rfl, rfl, rfl, rfl⟩
    simp only [EventValve.minus]

/-! ### C2: polarity alternation of the events emitted by one gate

A run of bare stimulations of a single valve: each operation is a direct or
forwarded `plus()` / `minus()` call (an `EventForkValve` forwards activation
by calling exactly these methods on its output valves). -/

inductive PMOp where
  | plus
  | minus
deriving DecidableEq, Repr

def runPM : ValveData → List (Int × Int) → List PMOp → ValveData × List (Int × Int)
  | v, q, [] => (v, q)
  | v, q, op :: ops =>
      let (v', q') := match op with
        | .plus => EventValve.plus v q
        | .minus => EventValve.minus v q
      runPM v' q' ops

/-- Two queue entries of opposite polarity: not both asserted (positive event
id) and not both de-asserted (negative event id). -/
def OppPolarity (x y : Int × Int) : Prop :=
  ¬(0 < x.2 ∧ 0 < y.2) ∧ ¬(x.2 < 0 ∧ y.2 < 0)

/-- Strict open/closed alternation of a queue produced by one gate. -/
def AltOC (o c : Int × Int) : List (Int × Int) → Prop :=
  List.Chain' (fun a b => (a = o ∧ b = c) ∨ (a = c ∧ b = o))

/-- Relation between the last emitted event and the current pressure that
makes the alternation invariant inductive. -/
def LastOk (o c : Int × Int) (p : Int) (q : List (Int × Int)) : Prop :=
  ∀ x, q.getLast? = some x → (x = o ∧ 1 ≤ p) ∨ (x = c ∧ p ≤ 0)

theorem runPM_disabled (ops : List PMOp) (v : ValveData) (q : List (Int × Int))
    (h : v.enabled = false) : (runPM v q ops).2 = q := by
  induction ops generalizing v q with
  | nil => rfl
  | cons op ops ih =>
      cases op <;>
        simp only [runPM, EventValve.plus, EventValve.minus, h] <;>
        rw [ih] <;> simp [h]

theorem runPM_invariant (o c : Int × Int) (ops : List PMOp) (v : ValveData)
    (q : List (Int × Int)) (ho : v.vopen = o) (hc : v.vclosed = c)
    (hen : v.enabled = true) (halt : AltOC o c q) (hlast : LastOk o c v.pressure q) :
    AltOC o c (runPM v q ops).2 ∧
      LastOk o c (runPM v q ops).1.pressure (runPM v q ops).2 := by
  induction ops generalizing v q with
  | nil => exact ⟨halt, hlast⟩
  | cons op ops ih =>
      cases op with
      | plus =>
          by_cases hp : v.pressure = 0
          · have hstep : runPM v q (.plus :: ops) =
                runPM { v with pressure := v.pressure + 1 } (q ++ [o]) ops := by
              simp [runPM, EventValve.plus, hen, hp, ho]
            rw [hstep]
            refine ih _ _ ho hc hen ?_ ?_
            · -- appended an open event: previous last cannot be `o`
              refine List.Chain'.append halt (List.chain'_singleton o) ?_
              intro x hx y hy
              rcases hlast x hx with ⟨hxo, hple⟩ | ⟨hxc, _⟩
              · omega
              · simp only [List.head?_cons, Option.mem_def, Option.some.injEq] at hy
                exact Or.inr ⟨hxc, hy.symm⟩
            · intro x hx
              rw [List.getLast?_append_cons] at hx
              simp only [List.getLast?_singleton, Option.some.injEq] at hx
              left
              refine ⟨hx.symm, ?_⟩
              show (1 : Int) ≤ v.pressure + 1
              omega
          · have hstep : runPM v q (.plus :: ops) =
                runPM { v with pressure := v.pressure + 1 } q ops := by
              simp [runPM, EventValve.plus, hp]
            rw [hstep]
            refine ih _ _ ho hc hen halt ?_
            intro x hx
            rcases hlast x hx with ⟨hxo, hple⟩ | ⟨hxc, hple⟩
            · exact Or.inl ⟨hxo, by show (1 : Int) ≤ v.pressure + 1; omega⟩
            · exact Or.inr ⟨hxc, by show v.pressure + 1 ≤ (0 : Int); omega⟩
      | minus =>
          by_cases hp : v.pressure - 1 = 0
          · have hstep : runPM v q (.minus :: ops) =
                runPM { v with pressure := v.pressure - 1 } (q ++ [c]) ops := by
              simp [runPM, EventValve.minus, hen, hp, hc]
            rw [hstep]
            refine ih _ _ ho hc hen ?_ ?_
            · refine List.Chain'.append halt (List.chain'_singleton c) ?_
              intro x hx y hy
              simp only [List.head?_cons, Option.mem_def, Option.some.injEq] at hy
              rcases hlast x hx with ⟨hxo, _⟩ | ⟨hxc, hple⟩
              · exact Or.inl ⟨hxo, hy.symm⟩
              · omega
            · intro x hx
              rw [List.getLast?_append_cons] at hx
              simp only [List.getLast?_singleton, Option.some.injEq] at hx
              right
              exact ⟨hx.symm, by show v.pressure - 1 ≤ (0 : Int); omega⟩
          · have hstep : runPM v q (.minus :: ops) =
                runPM { v with pressure := v.pressure - 1 } q ops := by
              simp [runPM, EventValve.minus, hp]
            rw [hstep]
            refine ih _ _ ho hc hen halt ?_
            intro x hx
            rcases hlast x hx with ⟨hxo, hple⟩ | ⟨hxc, hple⟩
            · exact Or.inl ⟨hxo, by show (1 : Int) ≤ v.pressure - 1; omega⟩
            · exact Or.inr ⟨hxc, by show v.pressure - 1 ≤ (0 : Int); omega⟩

/-- C2 (amended). For a gate whose `enabled` flag is never toggled and which
is not rewired during the run, any sequence of `plus()`/`minus()` calls
(direct or forwarded through `EventForkValve`s) emits strictly alternating
polarities: never two consecutive assertions nor two consecutive
de-assertions.  The hypotheses state the shape `__init__` gives every valve:
`closed = (pid, -evid)` with `evid > 0`. -/
theorem C2_alternation_amended (v : ValveData) (ops : List PMOp)
    (hcl : v.vclosed = (v.vopen.1, -v.vopen.2)) (hev : 0 < v.vopen.2) :
    List.Chain' OppPolarity (runPM v [] ops).2 := by
  cases hen : v.enabled with
  | false =>
      rw [runPM_disabled ops v [] hen]
      exact List.chain'_nil
  | true =>
      have h := runPM_invariant v.vopen v.vclosed ops v [] rfl rfl hen
        List.chain'_nil (by intro x hx; simp at hx)
      refine h.1.imp ?_
      rintro a b (⟨ha, hb⟩ | ⟨ha, hb⟩) <;>
        subst ha <;> subst hb <;>
        refine ⟨?_, ?_⟩ <;> rw [hcl] <;> simp <;> omega

/-- Witness for `C2_alternation_amended` at a concrete valve and run. -/
theorem C2_alternation_amended_witness :
    List.Chain' OppPolarity
      (runPM (mkValve 0 UP 0 0) []
        [.plus, .plus, .minus, .minus, .minus, .plus, .plus]).2 :=
  C2_alternation_amended (mkValve 0 UP 0 0)
    [.plus, .plus, .minus, .minus, .minus, .plus, .plus] rfl (by decide)

/-! ### The object heap

`EventValve`, `EventForkValve` and `deque` objects live in arenas and are
referenced by arena index, making Python aliasing and object identity
explicit.  Arena reads of indices that no live Python program ever produces
return a harmless default (Python would have no such dangling reference);
arena writes out of range are no-ops. -/

structure ForkData where
  pressure : Int
  start_pressure : Int
  outputs : List Nat
deriving DecidableEq, Repr

/-- A container entry: a reference to an `EventValve` or an `EventForkValve`. -/
inductive Entry where
  | valve (vid : Nat)
  | fork (fid : Nat)
deriving DecidableEq, Repr

structure Heap where
  valves : List ValveData
  forks : List ForkData
  queues : List (List (Int × Int))
deriving DecidableEq, Repr

def dValve : ValveData := mkValve 0 0 0 0
def dFork : ForkData := ⟨0, 0, []⟩

def Heap.valve (h : Heap) (vid : Nat) : ValveData := h.valves.getD vid dValve
def Heap.fork (h : Heap) (fid : Nat) : ForkData := h.forks.getD fid dFork
def Heap.queue (h : Heap) (qid : Nat) : List (Int × Int) := h.queues.getD qid []

def Heap.setValve (h : Heap) (vid : Nat) (v : ValveData) : Heap :=
  { h with valves := h.valves.set vid v }
def Heap.setFork (h : Heap) (fid : Nat) (f : ForkData) : Heap :=
  { h with forks := h.forks.set fid f }
def Heap.setQueue (h : Heap) (qid : Nat) (q : List (Int × Int)) : Heap :=
  { h with queues := h.queues.set qid q }

/-- `EventValve.plus` on a heap-allocated valve: the valve's `evlist`
reference is dereferenced through `evq`. -/
def valvePlusH (h : Heap) (vid : Nat) : Heap :=
  let v := h.valve vid
  let (v', q') := EventValve.plus v (h.queue v.evq)
  (h.setValve vid v').setQueue v.evq q'

def valveMinusH (h : Heap) (vid : Nat) : Heap :=
  let v := h.valve vid
  let (v', q') := EventValve.minus v (h.queue v.evq)
  (h.setValve vid v').setQueue v.evq q'

/-- `EventForkValve.plus`: if pressure == 0, call `plus()` on every output
valve; always increment pressure (the source increments after the loop, and
the output valves cannot change the fork's fields). -/
def forkPlusH (h : Heap) (fid : Nat) : Heap :=
  let f := h.fork fid
  let h1 := if f.pressure = 0 then f.outputs.foldl valvePlusH h else h
  h1.setFork fid { f with pressure := f.pressure + 1 }

/-- `EventForkValve.minus`: decrement pressure; if it reaches 0, call
`minus()` on every output valve. -/
def forkMinusH (h : Heap) (fid : Nat) : Heap :=
  let f := h.fork fid
  let f' : ForkData := { f with pressure := f.pressure - 1 }
  let h1 := h.setFork fid f'
  if f'.pressure = 0 then f.outputs.foldl valveMinusH h1 else h1

def entryPlus (h : Heap) : Entry → Heap
  | .valve vid => valvePlusH h vid
  | .fork fid => forkPlusH h fid

def entryMinus (h : Heap) : Entry → Heap
  | .valve vid => valveMinusH h vid
  | .fork fid => forkMinusH h fid

/-! ### The container

`EventPlumbing.container` "must be able to map ints to objects by use of
[]"; the two container kinds the source uses are a list (`[]`) and a dict
(`{}`), modelled respectively as a `List` and as an association list. -/

inductive Container where
  | lst (l : List (List Entry))
  | dct (d : List (Nat × List Entry))
deriving DecidableEq, Repr

/-- `container[i]`, where a missing index raises `IndexError`/`KeyError`
(= `none` here). -/
def Container.get : Container → Nat → Option (List Entry)
  | .lst l, i => l.get? i
  | .dct d, i => (d.find? (fun kv => kv.1 == i)).map (·.2)

/-- Replace the list object stored at key `i` (which must exist for dicts;
for robustness a missing dict key is appended). -/
def setAssocNat {α : Type} : List (Nat × α) → Nat → α → List (Nat × α)
  | [], i, a => [(i, a)]
  | kv :: rest, i, a =>
      if kv.1 = i then (i, a) :: rest else kv :: setAssocNat rest i a

def Container.set : Container → Nat → List Entry → Container
  | .lst l, i, es => .lst (l.set i es)
  | .dct d, i, es => .dct (setAssocNat d i es)

/-- `EventPlumbing._make_index_valid`: for a list, append `[]` while
`len(container) <= idx` (written in closed form); for a dict,
`setdefault(idx, [])`. -/
def Container.makeIndexValid : Container → Nat → Container
  | .lst l, i => .lst (l ++ List.replicate (i + 1 - l.length) [])
  | .dct d, i =>
      if (d.find? (fun kv => kv.1 == i)).isSome then .dct d else .dct (d ++ [(i, [])])

/-- Keys in the order `EventPlumbing.visit` iterates them: ascending
(`range(len(...))` for lists, `keys(); sort()` for dicts). -/
def Container.keysSorted : Container → List Nat
  | .lst l => List.range l.length
  | .dct d => List.insertionSort (· ≤ ·) (d.map (·.1))

/-- Keys in the order `EventPlumbing.replace_valve` iterates them (unsorted
`keys()`, i.e. dict storage order). -/
def Container.keysUnsorted : Container → List Nat
  | .lst l => List.range l.length
  | .dct d => d.map (·.1)

/-! ### EventPlumbing -/

structure Plumbing where
  container : Container
  is_keyboard : Bool
  menuing_disabled : Bool
deriving DecidableEq, Repr

/-- `EventPlumbing.plus(index)`: stimulate every valve registered at
`index`; a missing index is caught (`except (KeyError, IndexError): pass`). -/
def EventPlumbing.plus (h : Heap) (p : Plumbing) (index : Nat) : Heap :=
  match p.container.get index with
  | none => h
  | some entries => entries.foldl entryPlus h

def EventPlumbing.minus (h : Heap) (p : Plumbing) (index : Nat) : Heap :=
  match p.container.get index with
  | none => h
  | some entries => entries.foldl entryMinus h

/-! ### C7: out-of-range stimulation is silently ignored -/

/-- C7. `plus(index)`/`minus(index)` on an index that is not registered in
the container (beyond a list container's length, or absent from a dict
container) return normally (the exception is caught in the source, the
Lean embedding is total) and leave the heap — in particular every valve's
pressure and every queue — completely unchanged. -/
theorem C7_unregistered_index_ignored (h : Heap) (p : Plumbing) (index : Nat)
    (hnone : p.container.get index = none) :
    EventPlumbing.plus h p index = h ∧ EventPlumbing.minus h p index = h := by
  constructor <;> simp [EventPlumbing.plus, EventPlumbing.minus, hnone]

/-- Witness for `C7_unregistered_index_ignored`, covering both container
kinds: index 2 beyond a 1-entry list container, and key 7 absent from a
dict container. -/
theorem C7_unregistered_index_ignored_witness :
    (EventPlumbing.plus ⟨[mkValve 0 UP 0 0], [], [[]]⟩
        ⟨.lst [[.valve 0]], false, false⟩ 2 = ⟨[mkValve 0 UP 0 0], [], [[]]⟩ ∧
      EventPlumbing.minus ⟨[mkValve 0 UP 0 0], [], [[]]⟩
        ⟨.lst [[.valve 0]], false, false⟩ 2 = ⟨[mkValve 0 UP 0 0], [], [[]]⟩) ∧
    (EventPlumbing.plus ⟨[mkValve 0 UP 0 0], [], [[]]⟩
        ⟨.dct [(3, [.valve 0])], false, false⟩ 7 = ⟨[mkValve 0 UP 0 0], [], [[]]⟩ ∧
      EventPlumbing.minus ⟨[mkValve 0 UP 0 0], [], [[]]⟩
        ⟨.dct [(3, [.valve 0])], false, false⟩ 7 = ⟨[mkValve 0 UP 0 0], [], [[]]⟩) :=
  ⟨C7_unregistered_index_ignored _ _ 2 (by decide),
   C7_unregistered_index_ignored _ _ 7 (by decide)⟩

/-! ### The global valve templates

Module level, ui.py creates one `EventValve` per possible semantic event in
the dict `valves` (all bound to the shared `event_buffer`, which is queue 0
here) and the reverse dict `valvenames`.  A Python dict has no observable
storage order for these lookups, so a fixed enumeration order is used. -/

def control_events : List (String × Int) :=
  [("CANCEL", CANCEL), ("UP", UP), ("DOWN", DOWN), ("LEFT", LEFT),
   ("RIGHT", RIGHT), ("PGUP", PGUP), ("PGDN", PGDN), ("OPTIONS", OPTIONS),
   ("RANDOM", RANDOM), ("CONFIRM", CONFIRM), ("FULLSCREEN", FULLSCREEN),
   ("QUIT", QUIT), ("SCREENSHOT", SCREENSHOT), ("SORT", SORT)]

def dance_events : List (String × Int) :=
  [("UP", UP), ("DOWN", DOWN), ("LEFT", LEFT), ("RIGHT", RIGHT),
   ("UPLEFT", UPLEFT), ("UPRIGHT", UPRIGHT), ("DOWNLEFT", DOWNLEFT),
   ("DOWNRIGHT", DOWNRIGHT), ("CENTER", CENTER)]

/-- The `valves` dict: `EventValve(-1, evid, event_buffer, 0)` for control
events, `EventValve(pid, evid, event_buffer, 0)` under name `"P%d_%s"` for
dance events and `EventValve(pid, GENERIC_BUTTON+butt, event_buffer, 0)`
under `"P%d_BUTTON_%d"`, for each `pid < MAX_PLAYERS`. -/
def templateValveList : List (String × ValveData) :=
  control_events.map (fun ne => (ne.1, mkValve (-1) ne.2 0 0)) ++
  (List.range 4).flatMap (fun pid =>
    dance_events.map
      (fun ne => ("P" ++ toString (pid + 1) ++ "_" ++ ne.1,
        mkValve pid ne.2 0 0)) ++
    (List.range MAX_BUTTONS).map
      (fun butt => ("P" ++ toString (pid + 1) ++ "_BUTTON_" ++ toString butt,
        mkValve pid (GENERIC_BUTTON + butt) 0 0)))

/-- `valves[valvename]` as an arena id into `heap0.valves`. -/
def valves_lookup (valvename : String) : Option Nat :=
  templateValveList.findIdx? (fun kv => kv.1 == valvename)

/-- `valvenames[(pid, evid)]`. -/
def valvenames_lookup (pidevid : Int × Int) : Option String :=
  (templateValveList.find? (fun kv => kv.2.vopen == pidevid)).map (·.1)

/-- The initial heap: all template valves, no forks, and queue 0 =
`ui.event_buffer` (empty). -/
def heap0 : Heap := ⟨templateValveList.map (·.2), [], [[]]⟩

/-! ### EventPlumbing.add -/

inductive PlumbErr where
  | missingRightSide
  | emptyLeftSide
  | invalidAxis
  | invalidEventName
deriving DecidableEq, Repr

/-- `EventPlumbing.add(inputs, valvename)`.  `inputs` is the Python input
set given as a duplicate-free list; a singleton takes the direct-valve
path, anything else the `EventForkValve` path.  The caught
`KeyError`/`IndexError` of the source (including the `for..else raise`)
are the `none` cases of `attempt`. -/
def EventPlumbing.add (h : Heap) (p : Plumbing) (inputs : List Nat)
    (valvename : String) : Except PlumbErr (Heap × Plumbing) := do
  match valves_lookup valvename with
  | none => throw .invalidEventName
  | some vid =>
    match inputs with
    | [i] =>
        -- single button input => map directly to EventValve
        let found : Bool := match p.container.get i with
          | none => false
          | some l => l.any (fun e => match e with
              | .valve v' => (h.valve v').vopen == (h.valve vid).vopen
              | .fork _ => false)
        if found then pure (h, p)
        else
          let c1 := p.container.makeIndexValid i
          let c2 := c1.set i ((c1.get i).getD [] ++ [.valve vid])
          pure (h, { p with container := c2 })
    | _ =>
        -- multi-button input => need to use EventForkValve
        let attempt : Option (Heap × Plumbing) := do
          let ls ← inputs.mapM p.container.get
          match ls with
          | [] => none
          | l0 :: rest =>
            -- intersection of the entry sets of all inputs
            let inter := rest.foldl (fun acc s => acc.filter (fun e => decide (e ∈ s))) l0
            let fid ← inter.findSome? (fun e => match e with
              | .fork fid =>
                  if (h.fork fid).start_pressure = -(inputs.length : Int) + 1
                  then some fid else none
              | .valve _ => none)
            let f := h.fork fid
            if (h.valve vid).vopen ∈ f.outputs.map (fun o => (h.valve o).vopen)
            then pure (h, p)
            else pure (h.setFork fid { f with outputs := f.outputs ++ [vid] }, p)
        match attempt with
        | some res => pure res
        | none =>
          -- no existing connection found => make a new one
          let c1 := inputs.foldl Container.makeIndexValid p.container
          let fid := h.forks.length
          let sp : Int := -(inputs.length : Int) + 1
          let h1 : Heap := { h with forks := h.forks ++ [⟨sp, sp, [vid]⟩] }
          let c2 := inputs.foldl
            (fun c i => c.set i ((c.get i).getD [] ++ [.fork fid])) c1
          pure (h1, { p with container := c2 })

/-! ### The blueprint parser (`EventPlumbing.__init__`) -/

/-- Split a character list at every separator character (producing empty
chunks between adjacent separators, like `str.split(sep)`); written
structurally so that it evaluates inside the kernel. -/
def splitCharsAux (sep : Char → Bool) : List Char → List Char → List (List Char)
  | [], acc => [acc.reverse]
  | c :: cs, acc =>
      if sep c then acc.reverse :: splitCharsAux sep cs []
      else splitCharsAux sep cs (c :: acc)

/-- The blueprint's `splitlines()` (the blueprints here are newline
separated; blank lines are skipped by the caller). -/
def pyLines (s : String) : List String :=
  (splitCharsAux (fun c => c = '\n') s.toList []).map String.mk

/-- Python `str.split()` (split on whitespace runs, no empty words). -/
def splitWS (s : String) : List String :=
  ((splitCharsAux Char.isWhitespace s.toList []).map String.mk).filter
    (fun w => w ≠ "")

/-- Python `str.strip()`. -/
def pyTrim (s : String) : String :=
  String.mk (((s.toList.dropWhile Char.isWhitespace).reverse.dropWhile
    Char.isWhitespace).reverse)

/-- Python `str.upper()`. -/
def pyUpper (s : String) : String :=
  String.mk (s.toList.map Char.toUpper)

def partEqAux : List Char → List Char → String × String
  | [], acc => (String.mk acc.reverse, "")
  | c :: cs, acc =>
      if c = '=' then (String.mk acc.reverse, String.mk cs)
      else partEqAux cs (c :: acc)

/-- Python `line.partition("=")` projected to (before, after). -/
def partitionEq (s : String) : String × String :=
  partEqAux s.toList []

/-- Python `int()` on a digit string. -/
def digitsToNat : List Char → Nat → Nat
  | [], n => n
  | c :: cs, n => digitsToNat cs (n * 10 + (c.toNat - 48))

/-- Dedup-preserving insertion, modelling accumulation into a Python set
of small ints (iteration order is irrelevant to every use site). -/
def insertSet (l : List Nat) (i : Nat) : List Nat :=
  if i ∈ l then l else l ++ [i]

/-- Parse one `<input>` word of a blueprint line: a decimal button number,
or an axis-state descriptor `L-` / `L0` / `L+` mapped to the reserved
index `MAX_BUTTONS + (L - 'A')*3 + {0,1,2}`.  Returns the index and
whether the word forces `is_keyboard`. -/
def parseInputWord (w : String) : Except PlumbErr (Nat × Bool) :=
  if w ≠ "" ∧ w.toList.all Char.isDigit then
    let i := digitsToNat w.toList 0
    pure (i, decide (i ≥ MAX_BUTTONS))
  else
    match w.toList with
    | [c0, c1] =>
        if (c1 = '-' ∨ c1 = '0' ∨ c1 = '+') ∧ 'A' ≤ c0 ∧ c0 ≤ 'Z' then
          let i := (c0.toNat - 65) * 3 +
            (if c1 = '0' then 1 else if c1 = '+' then 2 else 0)
          pure (MAX_BUTTONS + i, false)
        else throw .invalidAxis
    | _ => throw .invalidAxis

/-- Process one blueprint line exactly as the constructor loop does. -/
def parseLine (hp : Heap × Plumbing) (rawline : String) :
    Except PlumbErr (Heap × Plumbing) := do
  let line := pyUpper (pyTrim rawline)
  if line = "" then pure hp
  else
    let (inp, outp) := partitionEq line
    if outp = "" then throw .missingRightSide
    else if inp = "" then throw .emptyLeftSide
    else do
      let st ← (splitWS inp).foldlM
        (fun (st : List Nat × Bool) w => do
          let (i, kb) ← parseInputWord w
          pure (insertSet st.1 i, st.2 || kb))
        (([] : List Nat), hp.2.is_keyboard)
      let p1 : Plumbing := { hp.2 with is_keyboard := st.2 }
      (splitWS outp).foldlM
        (fun (hp : Heap × Plumbing) ow => do
          let strip := ow.toList.head? = some '!'
          let ow := if strip then String.mk (ow.toList.drop 1) else ow
          let p2 : Plumbing :=
            if strip then { hp.2 with menuing_disabled := true } else hp.2
          EventPlumbing.add hp.1 p2 st.1 ow)
        (hp.1, p1)

/-- `EventPlumbing(container, blueprint)`. -/
def EventPlumbing.init (h : Heap) (container : Container) (blueprint : String) :
    Except PlumbErr (Heap × Plumbing) :=
  (pyLines blueprint).foldlM parseLine
    (h, { container := container, is_keyboard := false, menuing_disabled := false })

/-! ### C3: `add` is idempotent and input-order-insensitive

Small version-stable list helpers used by the proofs. -/

theorem list_get?_set_self {α : Type} :
    ∀ (l : List α) (i : Nat) (a : α), i < l.length → (l.set i a).get? i = some a
  | _ :: _, 0, _, _ => rfl
  | _ :: xs, i + 1, a, h => list_get?_set_self xs i a (by simpa using h)

theorem list_get?_set_ne {α : Type} :
    ∀ (l : List α) (i j : Nat) (a : α), i ≠ j → (l.set i a).get? j = l.get? j
  | [], _, _, _, _ => rfl
  | _ :: _, 0, 0, _, hne => absurd rfl hne
  | _ :: _, 0, _ + 1, _, _ => rfl
  | _ :: _, _ + 1, 0, _, _ => rfl
  | _ :: xs, i + 1, j + 1, a, hne =>
      list_get?_set_ne xs i j a (fun he => hne (by omega))

theorem list_getD_concat {α : Type} :
    ∀ (l : List α) (x d : α), (l ++ [x]).getD l.length d = x
  | [], _, _ => rfl
  | _ :: ys, x, d => list_getD_concat ys x d

theorem list_get?_replicate {α : Type} (a : α) :
    ∀ (n j : Nat), (List.replicate n a).get? j = if j < n then some a else none
  | 0, _ => rfl
  | n + 1, 0 => by simp
  | n + 1, j + 1 => by
      simpa [List.replicate_succ] using list_get?_replicate a n j

theorem list_get?_lt {α : Type} :
    ∀ (l : List α) (i : Nat), i < l.length → ∃ x, l.get? i = some x
  | x :: _, 0, _ => ⟨x, rfl⟩
  | _ :: xs, i + 1, h => list_get?_lt xs i (by simpa using h)

/-- The final length of a list container grown by `_make_index_valid` for
every index in `S`. -/
def maxFold (n : Nat) (S : List Nat) : Nat :=
  S.foldl (fun m i => max m (i + 1)) n

theorem maxFold_le_init (S : List Nat) : ∀ n, n ≤ maxFold n S := by
  induction S with
  | nil => intro n; exact Nat.le_refl n
  | cons i S ih =>
      intro n
      exact le_trans (Nat.le_max_left n (i + 1)) (ih (max n (i + 1)))

theorem mem_lt_maxFold (S : List Nat) :
    ∀ n i, i ∈ S → i < maxFold n S := by
  induction S with
  | nil => intro n i hi; cases hi
  | cons a S ih =>
      intro n i hi
      rcases List.mem_cons.mp hi with rfl | hi
      · calc i < i + 1 := Nat.lt_succ_self i
          _ ≤ max n (i + 1) := Nat.le_max_right _ _
          _ ≤ maxFold (max n (i + 1)) S := maxFold_le_init S _
      · exact ih _ i hi

theorem growFold_replicate (S : List Nat) :
    ∀ n, S.foldl Container.makeIndexValid (.lst (List.replicate n [])) =
      .lst (List.replicate (maxFold n S) []) := by
  induction S with
  | nil => intro n; rfl
  | cons i S ih =>
      intro n
      have hrep : n + (i + 1 - n) = max n (i + 1) := by omega
      have hstep : Container.makeIndexValid (.lst (List.replicate n [])) i =
          .lst (List.replicate (max n (i + 1)) ([] : List Entry)) := by
        simp only [Container.makeIndexValid, List.length_replicate]
        rw [← List.replicate_add, hrep]
      simpa [List.foldl_cons, hstep] using ih (max n (i + 1))

/-- One step of the fork-registration loop of `add`'s create path. -/
def appForkL (fid : Nat) (l : List (List Entry)) (i : Nat) : List (List Entry) :=
  l.set i ((l.get? i).getD [] ++ [.fork fid])

theorem foldAppend_lst (fid : Nat) (S : List Nat) :
    ∀ l : List (List Entry),
      S.foldl (fun (c : Container) (i : Nat) =>
          c.set i ((c.get i).getD [] ++ [.fork fid])) (Container.lst l) =
        .lst (S.foldl (appForkL fid) l) := by
  induction S with
  | nil => intro l; rfl
  | cons i S ih =>
      intro l
      rw [List.foldl_cons, List.foldl_cons]
      have hstep : Container.set (Container.lst l) i
          ((Container.get (Container.lst l) i).getD [] ++ [.fork fid]) =
          Container.lst (appForkL fid l i) := rfl
      rw [hstep, ih (appForkL fid l i)]

theorem foldAppend_length (fid : Nat) (S : List Nat) :
    ∀ l : List (List Entry), (S.foldl (appForkL fid) l).length = l.length := by
  induction S with
  | nil => intro l; rfl
  | cons i S ih =>
      intro l
      rw [List.foldl_cons, ih (appForkL fid l i)]
      simp [appForkL, List.length_set]

theorem foldAppend_get? (fid : Nat) (S : List Nat) :
    ∀ (l : List (List Entry)), S.Nodup → (∀ i ∈ S, i < l.length) → ∀ j,
      (S.foldl (appForkL fid) l).get? j =
        if j ∈ S then (l.get? j).map (fun es => es ++ [.fork fid]) else l.get? j := by
  induction S with
  | nil => intro l _ _ j; simp
  | cons i S ih =>
      intro l hnd hlt j
      have hiS : i ∉ S := (List.nodup_cons.mp hnd).1
      have hndS : S.Nodup := (List.nodup_cons.mp hnd).2
      have hil : i < l.length := hlt i (List.mem_cons_self i S)
      have hltS : ∀ a ∈ S, a < (appForkL fid l i).length := by
        intro a ha
        simpa [appForkL, List.length_set] using hlt a (List.mem_cons_of_mem i ha)
      rw [List.foldl_cons, ih (appForkL fid l i) hndS hltS j]
      by_cases hji : j = i
      · subst hji
        obtain ⟨x, hx⟩ := list_get?_lt l j hil
        have h1 : (appForkL fid l j).get? j = some (x ++ [.fork fid]) := by
          simp only [appForkL]
          rw [list_get?_set_self _ _ _ hil, hx]
          rfl
        rw [if_neg hiS, if_pos (List.mem_cons_self j S), h1, hx]
        rfl
      · have hset : (appForkL fid l i)[j]? = l[j]? := by
          rw [← List.get?_eq_getElem?, ← List.get?_eq_getElem?]
          simp only [appForkL]
          exact list_get?_set_ne _ _ _ _ (fun he => hji he.symm)
        by_cases hjS : j ∈ S <;> simp [hjS, hji, hset, List.mem_cons]

/-- The container produced by registering one fresh fork at every index of
`S`, starting from the empty list container. -/
def createdContainer (S : List Nat) (fid : Nat) : Container :=
  .lst (S.foldl (appForkL fid) (List.replicate (maxFold 0 S) []))

theorem createdContainer_get (S : List Nat) (fid : Nat) (hnd : S.Nodup) (j : Nat) :
    (createdContainer S fid).get j =
      if j ∈ S then some [.fork fid]
      else if j < maxFold 0 S then some [] else none := by
  have hlt : ∀ i ∈ S, i < (List.replicate (maxFold 0 S) ([] : List Entry)).length := by
    intro i hi
    simpa using mem_lt_maxFold S 0 i hi
  show (S.foldl (appForkL fid) (List.replicate (maxFold 0 S) [])).get? j = _
  rw [foldAppend_get? fid S _ hnd hlt j]
  by_cases hj : j ∈ S
  · have hjlt : j < maxFold 0 S := mem_lt_maxFold S 0 j hj
    simp [hj, list_get?_replicate, hjlt]
  · simp only [hj, if_false]
    rw [list_get?_replicate]

theorem maxFold_perm {S S' : List Nat} (hperm : S'.Perm S) :
    maxFold 0 S' = maxFold 0 S :=
  List.Perm.foldl_eq' hperm (fun x _ y _ z => by omega) 0

theorem list_mapM_const {α β : Type} (f : α → Option β) (y : β) :
    ∀ (S : List α), (∀ i ∈ S, f i = some y) → S.mapM f = some (S.map (fun _ => y)) := by
  intro S
  induction S with
  | nil => intro _; rfl
  | cons a S ih =>
      intro hall
      rw [List.mapM_cons, hall a (List.mem_cons_self a S),
        ih (fun i hi => hall i (List.mem_cons_of_mem a hi))]
      rfl

theorem foldl_filter_const (x : Entry) :
    ∀ (rest : List (List Entry)), (∀ s ∈ rest, x ∈ s) →
      rest.foldl (fun acc s => acc.filter (fun e => decide (e ∈ s))) [x] = [x] := by
  intro rest
  induction rest with
  | nil => intro _; rfl
  | cons s rest ih =>
      intro hall
      have hx : x ∈ s := hall s (List.mem_cons_self s rest)
      have hstep : List.filter (fun e => decide (e ∈ s)) [x] = [x] := by
        simp [List.filter, hx]
      rw [List.foldl_cons, hstep, ih (fun t ht => hall t (List.mem_cons_of_mem s ht))]

/-- `add` on a fresh empty list container with a multi-element input set
takes the create path and produces exactly one new `EventForkValve`. -/
theorem add_create_empty (h : Heap) (S : List Nat) (E : String) (vid : Nat)
    (hE : valves_lookup E = some vid) (hk : 2 ≤ S.length) :
    EventPlumbing.add h ⟨.lst [], false, false⟩ S E =
      .ok ({ h with forks := h.forks ++
              [⟨-(S.length : Int) + 1, -(S.length : Int) + 1, [vid]⟩] },
           ⟨createdContainer S h.forks.length, false, false⟩) := by
  obtain ⟨a, b, t, rfl⟩ : ∃ a b t, S = a :: b :: t := by
    match S, hk with
    | a :: b :: t, _ => exact ⟨a, b, t, rfl⟩
  simp only [EventPlumbing.add, hE]
  have hmap : (a :: b :: t).mapM (Container.get (Container.lst [])) = none := by
    rw [List.mapM_cons]
    rfl
  rw [hmap]
  show Except.ok _ = _
  have hgrow : (a :: b :: t).foldl Container.makeIndexValid (.lst []) =
      .lst (List.replicate (maxFold 0 (a :: b :: t)) []) :=
    growFold_replicate (a :: b :: t) 0
  rw [hgrow, foldAppend_lst]
  rfl

/-- `add` is a no-op when the container already holds, at every member of
the input set, a fork with the matching `start_pressure` whose outputs
already contain the target valve's binding. -/
theorem add_found_noop (h1 : Heap) (p1 : Plumbing) (T : List Nat) (E : String)
    (vid fid : Nat) (hE : valves_lookup E = some vid) (hlen : 2 ≤ T.length)
    (hget : ∀ i ∈ T, p1.container.get i = some [Entry.fork fid])
    (hsp : (h1.fork fid).start_pressure = -(T.length : Int) + 1)
    (hout : (h1.valve vid).vopen ∈
      (h1.fork fid).outputs.map (fun o => (h1.valve o).vopen)) :
    EventPlumbing.add h1 p1 T E = .ok (h1, p1) := by
  obtain ⟨a, b, t, rfl⟩ : ∃ a b t, T = a :: b :: t := by
    match T, hlen with
    | a :: b :: t, _ => exact ⟨a, b, t, rfl⟩
  simp only [EventPlumbing.add, hE]
  have hmap : (a :: b :: t).mapM p1.container.get =
      some ((a :: b :: t).map (fun _ => [Entry.fork fid])) :=
    list_mapM_const _ _ _ hget
  rw [hmap]
  have hinter : (([Entry.fork fid] : List Entry) ::
        t.map (fun _ => ([Entry.fork fid] : List Entry))).foldl
      (fun acc s => acc.filter (fun e => decide (e ∈ s))) [Entry.fork fid] =
      [Entry.fork fid] := by
    apply foldl_filter_const
    intro s hs
    rcases List.mem_cons.mp hs with rfl | hs
    · exact List.mem_singleton.mpr rfl
    · rcases List.mem_map.mp hs with ⟨_, _, rfl⟩
      exact List.mem_singleton.mpr rfl
  simp only [List.map_cons, Option.bind_eq_bind, Option.some_bind]
  rw [hinter]
  simp only [List.findSome?_cons, if_pos hsp, Option.some_bind, if_pos hout]
  rfl

/-- C3. `EventPlumbing.add` is idempotent and input-order-insensitive for
multi-input connections: for every duplicate-free input set `S` with at
least two members (in any listing order `S'`) and every valid event name
`E`, adding the connection once, twice, or with the members permuted yields
the identical graph: exactly one `EventForkValve` with
`start_pressure = -(|S|-1)`, registered at exactly the indices of `S`,
whose output list contains the valve for `E` exactly once. -/
theorem C3_add_idempotent_order_insensitive (h : Heap) (S S' : List Nat)
    (E : String) (vid : Nat) (hE : valves_lookup E = some vid)
    (hk : 2 ≤ S.length) (hnd : S.Nodup) (hperm : S'.Perm S) :
    ∃ h1 p1,
      EventPlumbing.add h ⟨.lst [], false, false⟩ S E = .ok (h1, p1) ∧
      EventPlumbing.add h ⟨.lst [], false, false⟩ S' E = .ok (h1, p1) ∧
      EventPlumbing.add h1 p1 S E = .ok (h1, p1) ∧
      EventPlumbing.add h1 p1 S' E = .ok (h1, p1) ∧
      h1.forks = h.forks ++
        [⟨-(S.length : Int) + 1, -(S.length : Int) + 1, [vid]⟩] ∧
      h1.valves = h.valves ∧ h1.queues = h.queues ∧
      (∀ j, j ∈ S ↔ p1.container.get j = some [.fork h.forks.length]) := by
  have hnd' : S'.Nodup := hperm.nodup_iff.mpr hnd
  have hlen' : S'.length = S.length := hperm.length_eq
  have hk' : 2 ≤ S'.length := by omega
  have hmax := maxFold_perm hperm
  have hfork : Heap.fork
      { h with forks := h.forks ++
          [⟨-(S.length : Int) + 1, -(S.length : Int) + 1, [vid]⟩] }
      h.forks.length =
      ⟨-(S.length : Int) + 1, -(S.length : Int) + 1, [vid]⟩ := by
    show (h.forks ++ [_]).getD h.forks.length dFork = _
    exact list_getD_concat _ _ _
  refine ⟨_, _, add_create_empty h S E vid hE hk, ?_, ?_, ?_, rfl, rfl, rfl, ?_⟩
  · -- order-insensitivity of the create path
    rw [add_create_empty h S' E vid hE hk', hlen']
    have hcc : createdContainer S' h.forks.length = createdContainer S h.forks.length := by
      show Container.lst _ = Container.lst _
      congr 1
      apply List.ext_get?_iff.mpr
      intro n
      have e1 := createdContainer_get S' h.forks.length hnd' n
      have e2 := createdContainer_get S h.forks.length hnd n
      show (createdContainer S' h.forks.length).get n =
        (createdContainer S h.forks.length).get n
      rw [e1, e2, hmax]
      by_cases hn : n ∈ S <;> simp [hperm.mem_iff, hn]
    rw [hcc]
  · -- idempotence
    apply add_found_noop _ _ S E vid h.forks.length hE hk
    · intro i hi
      rw [createdContainer_get S h.forks.length hnd i]
      simp [hi]
    · rw [hfork]
    · rw [hfork]
      simp
  · -- idempotence under permuted listing
    apply add_found_noop _ _ S' E vid h.forks.length hE hk'
    · intro i hi
      rw [createdContainer_get S h.forks.length hnd i]
      simp [hperm.mem_iff.mp hi]
    · rw [hfork, hlen']
    · rw [hfork]
      simp
  · intro j
    rw [createdContainer_get S h.forks.length hnd j]
    constructor
    · intro hj
      simp [hj]
    · intro hj
      by_contra hnj
      rw [if_neg hnj] at hj
      by_cases hlt : j < maxFold 0 S
      · rw [if_pos hlt] at hj
        exact List.cons_ne_nil _ _ (Option.some.inj hj).symm
      · rw [if_neg hlt] at hj
        exact Option.noConfusion hj

/-- Witness for `C3_add_idempotent_order_insensitive` at the spec's own
example: `add({3,4}, "QUIT")` (and the listing order `[4,3]`). -/
theorem C3_add_idempotent_order_insensitive_witness :
    ∃ h1 p1,
      EventPlumbing.add heap0 ⟨.lst [], false, false⟩ [3, 4] "QUIT" = .ok (h1, p1) ∧
      EventPlumbing.add heap0 ⟨.lst [], false, false⟩ [4, 3] "QUIT" = .ok (h1, p1) ∧
      EventPlumbing.add h1 p1 [3, 4] "QUIT" = .ok (h1, p1) ∧
      EventPlumbing.add h1 p1 [4, 3] "QUIT" = .ok (h1, p1) ∧
      h1.forks = heap0.forks ++ [⟨-(([3, 4] : List Nat).length : Int) + 1,
        -(([3, 4] : List Nat).length : Int) + 1, [11]⟩] ∧
      h1.valves = heap0.valves ∧ h1.queues = heap0.queues ∧
      (∀ j, j ∈ ([3, 4] : List Nat) ↔
        p1.container.get j = some [.fork heap0.forks.length]) :=
  C3_add_idempotent_order_insensitive heap0 [3, 4] [4, 3] "QUIT" 11
    (by decide) (by decide) (by decide) (by decide)

/-! ### The visitor machinery (`EventPlumbing.visit`)

`visit` iterates the container keys in ascending order; an `EventValve`
entry fires the visitor immediately with `([idx], [self])`, an
`EventForkValve` entry accumulates its indices in the `state` dict and
fires once the count reaches `-start_pressure + 1`, passing the collected
input list and its output list.  Visitors only read or mutate valve
fields, so the visitor is a `step` function on a state `σ` and the heap. -/

/-- The `state` dict of `EventPlumbing.visit`, keyed by fork object. -/
def ForkState : Type := List (Nat × List Nat)

def lookupFS (fs : ForkState) (fid : Nat) : Option (List Nat) :=
  ((fs : List (Nat × List Nat)).find? (fun kv => kv.1 == fid)).map (·.2)

/-- `del state[self]`. -/
def removeFS (fs : ForkState) (fid : Nat) : ForkState :=
  (fs : List (Nat × List Nat)).filter (fun kv => kv.1 ≠ fid)

def visitEntry {σ : Type} (step : σ → Heap → List Nat → List Nat → σ × Heap)
    (idx : Nat) (e : Entry) : ForkState × σ × Heap → ForkState × σ × Heap
  | (fs, s, h) =>
    match e with
    | .valve vid =>
        let (s', h') := step s h [idx] [vid]
        (fs, s', h')
    | .fork fid =>
        let lst := (lookupFS fs fid).getD [] ++ [idx]
        let f := h.fork fid
        if (lst.length : Int) = -f.start_pressure + 1 then
          let (s', h') := step s h lst f.outputs
          (removeFS fs fid, s', h')
        else
          (setAssocNat fs fid lst, s, h)

def visitEntries {σ : Type} (step : σ → Heap → List Nat → List Nat → σ × Heap) :
    List (Nat × Entry) → ForkState × σ × Heap → ForkState × σ × Heap
  | [], st => st
  | (idx, e) :: rest, st => visitEntries step rest (visitEntry step idx e st)

/-- The (idx, entry) pairs `EventPlumbing.visit` iterates over. -/
def plumbingPairs (p : Plumbing) : List (Nat × Entry) :=
  p.container.keysSorted.flatMap (fun idx =>
    ((p.container.get idx).getD []).map (fun e => (idx, e)))

def EventPlumbing.visit {σ : Type} (step : σ → Heap → List Nat → List Nat → σ × Heap)
    (h : Heap) (p : Plumbing) (s : σ) : σ × Heap :=
  (visitEntries step (plumbingPairs p) ([], s, h)).2

/-- The pure schedule of `(inputs, outputs)` visitor calls of a traversal;
it depends only on the fork arena (which no visitor modifies). -/
def visitSchedule (forks : List ForkData) :
    List (Nat × Entry) → ForkState → List (List Nat × List Nat)
  | [], _ => []
  | (idx, e) :: rest, fs =>
    match e with
    | .valve vid => ([idx], [vid]) :: visitSchedule forks rest fs
    | .fork fid =>
        let lst := (lookupFS fs fid).getD [] ++ [idx]
        let f := forks.getD fid dFork
        if (lst.length : Int) = -f.start_pressure + 1 then
          (lst, f.outputs) :: visitSchedule forks rest (removeFS fs fid)
        else visitSchedule forks rest (setAssocNat fs fid lst)

/-- Any visitor run whose step preserves the fork arena is the fold of its
step over the pure schedule. -/
theorem visitEntries_eq_foldSchedule {σ : Type}
    (step : σ → Heap → List Nat → List Nat → σ × Heap)
    (hpres : ∀ s h ins outs, ((step s h ins outs).2).forks = h.forks) :
    ∀ (pairs : List (Nat × Entry)) (fs : ForkState) (s : σ) (h : Heap),
      (visitEntries step pairs (fs, s, h)).2 =
        (visitSchedule h.forks pairs fs).foldl
          (fun (sh : σ × Heap) c => step sh.1 sh.2 c.1 c.2) (s, h) := by
  intro pairs
  induction pairs with
  | nil => intro fs s h; rfl
  | cons pe rest ih =>
      intro fs s h
      obtain ⟨idx, e⟩ := pe
      cases e with
      | valve vid =>
          have hfk : ((step s h [idx] [vid]).2).forks = h.forks := hpres s h [idx] [vid]
          simp only [visitEntries, visitEntry, visitSchedule, List.foldl_cons]
          rw [ih fs (step s h [idx] [vid]).1 (step s h [idx] [vid]).2, hfk]
      | fork fid =>
          simp only [visitEntries, visitEntry, visitSchedule]
          by_cases hfire : ((((lookupFS fs fid).getD [] ++ [idx]).length : Int) =
              -(h.fork fid).start_pressure + 1)
          · have hfk := hpres s h ((lookupFS fs fid).getD [] ++ [idx]) (h.fork fid).outputs
            rw [if_pos hfire, if_pos (by exact hfire), List.foldl_cons]
            rw [ih (removeFS fs fid) _ _, hfk]
            rfl
          · rw [if_neg hfire, if_neg (by exact hfire)]
            exact ih (setAssocNat fs fid ((lookupFS fs fid).getD [] ++ [idx])) s h

/-! ### Visitor classes -/

/-- The per-valve pid update of `PIDTransposer.visit`:
`(pid & ~PLAYERS_MASK) + ((pid + adder) & PLAYERS_MASK)` for `pid >= 0`
(for non-negative pid, `pid & ~3 = pid - pid % 4`, and Python `& 3` is
`emod 4` for either sign). -/
def transposeValvePid (adder : Int) (v : ValveData) : ValveData :=
  let pid := v.vopen.1
  if 0 ≤ pid then
    let pid' := (pid - pid % MAX_PLAYERS) + (pid + adder) % MAX_PLAYERS
    { v with vopen := (pid', v.vopen.2), vclosed := (pid', v.vclosed.2) }
  else v

/-- `PIDTransposer.visit`: each valve object is processed at most once
(the `done` set, by object identity). -/
def pidTransposerStep (adder : Int) (done : List Nat) (h : Heap)
    (_ins outs : List Nat) : List Nat × Heap :=
  outs.foldl (fun (st : List Nat × Heap) vid =>
    if vid ∈ st.1 then st
    else (st.1 ++ [vid],
      st.2.setValve vid (transposeValvePid adder (st.2.valve vid)))) (done, h)

/-- `EventPlumbing.transpose_player(adder)`. -/
def EventPlumbing.transpose_player (h : Heap) (p : Plumbing) (adder : Int) : Heap :=
  (EventPlumbing.visit (pidTransposerStep adder) h p []).2

/-- `MenuControlsEnabled.visit`: set `enabled` of every valve with
`open[0] < 0`. -/
def menuEnabledStep (onoff : Bool) (u : Unit) (h : Heap)
    (_ins outs : List Nat) : Unit × Heap :=
  (u, outs.foldl (fun h vid =>
    let v := h.valve vid
    if v.vopen.1 < 0 then h.setValve vid { v with enabled := onoff } else h) h)

/-- `EventPlumbing.menu_controls_enabled(onoff)`: sets `menuing_disabled`
(unconditionally, as the source does) and visits. -/
def EventPlumbing.menu_controls_enabled (h : Heap) (p : Plumbing) (onoff : Bool) :
    Heap × Plumbing :=
  ((EventPlumbing.visit (menuEnabledStep onoff) h p ()).2,
   { p with menuing_disabled := true })

/-- `GenericButtonsFixup.visit` with `fixup = joy << GENERIC_BUTTON_SHIFTER`. -/
def genericFixupStep (fixup : Int) (u : Unit) (h : Heap)
    (_ins outs : List Nat) : Unit × Heap :=
  (u, outs.foldl (fun h vid =>
    let v := h.valve vid
    if v.vopen.2 ≥ GENERIC_BUTTON then
      h.setValve vid { v with
        vopen := (v.vopen.1 % MAX_PLAYERS + fixup, v.vopen.2),
        vclosed := (v.vclosed.1 % MAX_PLAYERS + fixup, v.vclosed.2) }
    else h) h)

/-- `ReplaceEvent.visit`. -/
def replaceEventStep (oldpidevid : Int × Int) (pid evid : Int) (u : Unit)
    (h : Heap) (_ins outs : List Nat) : Unit × Heap :=
  (u, outs.foldl (fun h vid =>
    let v := h.valve vid
    if v.vopen = oldpidevid then
      h.setValve vid { v with vopen := (pid, evid), vclosed := (pid, -evid) }
    else h) h)

/-- `FindEvent.visit`: remembers the last match seen (the `break` only
ends one output list). -/
def findEventStep (ev : Int × Int) (st : Option Nat) (h : Heap)
    (_ins outs : List Nat) : Option Nat × Heap :=
  (match outs.find? (fun vid => (h.valve vid).vopen == ev) with
   | some vid => some vid
   | none => st, h)

/-- `RepeatEvent.visit`: open REPEATABLE valves re-emit their open event;
each valve object at most once per visit. -/
def repeatEventStep (st : List Nat) (h : Heap)
    (_ins outs : List Nat) : List Nat × Heap :=
  outs.foldl (fun (st : List Nat × Heap) vid =>
    let v := st.2.valve vid
    if v.pressure > 0 ∧ v.vopen ∈ REPEATABLE ∧ vid ∉ st.1 then
      (st.1 ++ [vid], st.2.setQueue v.evq (st.2.queue v.evq ++ [v.vopen]))
    else st) (st, h)

/-! ### PlumbingStringer and `__repr__` -/

/-- One input index rendered by `PlumbingStringer.visit`. -/
def stringerInputStr (is_keyboard : Bool) (i : Nat) : String :=
  if i ≥ MAX_BUTTONS ∧ is_keyboard = false then
    String.mk [Char.ofNat (65 + (i - MAX_BUTTONS) / 3),
               (['-', '0', '+'].getD ((i - MAX_BUTTONS) % 3) '-')]
  else toString i

/-- The output names rendered by `PlumbingStringer.visit`; a
`valvenames` miss is the propagated `KeyError`. -/
def stringerOutputStrs (h : Heap) (outs : List Nat) : Option (List String) :=
  outs.foldlM (fun acc vid => do
    let v := h.valve vid
    let pid := v.vopen.1
    let pid := if pid > 0 then pid % MAX_PLAYERS else pid
    let evid := v.vopen.2
    if evid ≠ PASS then
      match valvenames_lookup (pid, evid) with
      | none => none
      | some name =>
          some (acc ++ [if v.enabled then name else "!" ++ name])
    else some acc) []

def stringerStep (is_keyboard : Bool) (st : Option (List String)) (h : Heap)
    (ins outs : List Nat) : Option (List String) × Heap :=
  match st with
  | none => (none, h)
  | some lines =>
      let input_strings := ins.map (stringerInputStr is_keyboard)
      match stringerOutputStrs h outs with
      | none => (none, h)
      | some output_strings =>
          if output_strings.length > 0 ∧ input_strings.length > 0 then
            (some (lines ++ [String.intercalate " " input_strings ++ " = " ++
                String.intercalate " " output_strings]), h)
          else (some lines, h)

/-- `EventPlumbing.__repr__`. -/
def EventPlumbing.reprStr (h : Heap) (p : Plumbing) : Option String :=
  ((EventPlumbing.visit (stringerStep p.is_keyboard) h p (some [])).1).map
    (String.intercalate "\n")

/-! ### `clone` -/

def renameEntry (nv nf : Nat) : Entry → Entry
  | .valve vid => .valve (vid + nv)
  | .fork fid => .fork (fid + nf)

def Container.mapEntries (f : Entry → Entry) : Container → Container
  | .lst l => .lst (l.map (List.map f))
  | .dct d => .dct (d.map (fun kv => (kv.1, kv.2.map f)))

/-- The heap after `deepcopy(self)`: every valve and fork object gets a
fresh copy (object id shifted by the arena size, which preserves aliasing
exactly as `deepcopy`'s memo does); `EventValve.__deepcopy__` is
`copy(self)`, so the copied valve keeps its `evq` queue reference and the
queue arena is untouched. -/
def cloneHeap (h : Heap) : Heap :=
  { h with
    valves := h.valves ++ h.valves,
    forks := h.forks ++ h.forks.map
      (fun f => { f with outputs := f.outputs.map (· + h.valves.length) }) }

/-- `EventPlumbing.clone()`: deepcopy, then
`menu_controls_enabled(False)` if `menuing_disabled`. -/
def EventPlumbing.clone (h : Heap) (p : Plumbing) : Heap × Plumbing :=
  let h1 := cloneHeap h
  let c : Plumbing := { p with
    container :=
      Container.mapEntries (renameEntry h.valves.length h.forks.length) p.container }
  if p.menuing_disabled then EventPlumbing.menu_controls_enabled h1 c false
  else (h1, c)

/-! ### `replace_valve` -/

/-- The replace-and-dedup walk shared by `EventForkValve.replace_valve`
(over valve ids) and by the per-index loop of
`EventPlumbing.replace_valve`: replace every valve whose `open` equals
`oldpe` by `newvid`, merging each distinct replaced object's pressure into
`newvid` once (tracked in `already`), and deduplicate occurrences of
`newvid` (the `have` flag `hv`). -/
def replaceWalk (oldpe : Int × Int) (newvid : Nat) :
    List Nat → Heap → List Nat → Bool → List Nat × Heap × List Nat × Bool
  | [], h, already, hv => ([], h, already, hv)
  | x :: rest, h, already, hv =>
      let (cur, h1, already1) :=
        if (h.valve x).vopen = oldpe then
          if x ∈ already then (newvid, h, already)
          else
            let nv := h.valve newvid
            (newvid,
             h.setValve newvid { nv with pressure := nv.pressure + (h.valve x).pressure },
             already ++ [x])
        else (x, h, already)
      if cur = newvid then
        let (tail, h2, already2, hv2) := replaceWalk oldpe newvid rest h1 already1 true
        (if hv then tail else cur :: tail, h2, already2, hv2)
      else
        let (tail, h2, already2, hv2) := replaceWalk oldpe newvid rest h1 already1 hv
        (cur :: tail, h2, already2, hv2)

/-- `EventForkValve.replace_valve(oldpidevid, newvalve, already_counted)`. -/
def EventForkValve.replace_valve (h : Heap) (fid : Nat) (oldpe : Int × Int)
    (newvid : Nat) (already : List Nat) : Heap × List Nat :=
  let f := h.fork fid
  let (outs', h1, already1, _) := replaceWalk oldpe newvid f.outputs h already false
  (h1.setFork fid { (h1.fork fid) with outputs := outs' }, already1)

/-- The per-index walk of `EventPlumbing.replace_valve`: `EventValve`
entries are replaced/deduplicated (same walk as above), `EventForkValve`
entries recurse and are kept. -/
def replaceWalkEntries (oldpe : Int × Int) (newvid : Nat) :
    List Entry → Heap → List Nat → Bool → List Entry × Heap × List Nat × Bool
  | [], h, already, hv => ([], h, already, hv)
  | x :: rest, h, already, hv =>
      match x with
      | .valve v =>
          let (cur, h1, already1) :=
            if (h.valve v).vopen = oldpe then
              if v ∈ already then (newvid, h, already)
              else
                let nv := h.valve newvid
                (newvid,
                 h.setValve newvid
                   { nv with pressure := nv.pressure + (h.valve v).pressure },
                 already ++ [v])
            else (v, h, already)
          if cur = newvid then
            let (tail, h2, already2, hv2) :=
              replaceWalkEntries oldpe newvid rest h1 already1 true
            (if hv then tail else .valve cur :: tail, h2, already2, hv2)
          else
            let (tail, h2, already2, hv2) :=
              replaceWalkEntries oldpe newvid rest h1 already1 hv
            (.valve cur :: tail, h2, already2, hv2)
      | .fork fid =>
          let (h1, already1) := EventForkValve.replace_valve h fid oldpe newvid already
          let (tail, h2, already2, hv2) :=
            replaceWalkEntries oldpe newvid rest h1 already1 hv
          (x :: tail, h2, already2, hv2)

/-- `EventPlumbing.replace_valve(oldpidevid, newvalve)`. -/
def EventPlumbing.replace_valve (h : Heap) (p : Plumbing) (oldpe : Int × Int)
    (newvid : Nat) : Heap × Plumbing :=
  let res := (p.container.keysUnsorted).foldl
    (fun (st : Heap × Container × List Nat) idx =>
      match st.2.1.get idx with
      | none => st
      | some entries =>
          let (entries', h1, already1, _) :=
            replaceWalkEntries oldpe newvid entries st.1 st.2.2 false
          (h1, st.2.1.set idx entries', already1))
    (h, p.container, [])
  (res.1, { p with container := res.2.1 })

/-! ### C2 counterexample run

The repo's own test (the `menu_controls_enabled` block of ui.py's test
suite) drives a gate through enable/disable toggles; the queue it asserts
ends in two consecutive de-assertions.  This run reproduces the effect
with two consecutive assertions from the single gate of `4 = LEFT`. -/

/-- The network `4 = LEFT` (one menu-scoped gate at index 4). -/
def altCexPlumb : Heap × Plumbing :=
  match EventPlumbing.init heap0 (.lst []) "4 = LEFT" with
  | .ok hp => hp
  | .error _ => (heap0, ⟨.lst [], false, false⟩)

/-- Queue 0 after: plus(4); menu_controls_enabled(False); minus(4);
menu_controls_enabled(True); plus(4). -/
def altCexQueue : List (Int × Int) :=
  let h1 := EventPlumbing.plus altCexPlumb.1 altCexPlumb.2 4
  let m1 := EventPlumbing.menu_controls_enabled h1 altCexPlumb.2 false
  let h2 := EventPlumbing.minus m1.1 m1.2 4
  let m2 := EventPlumbing.menu_controls_enabled h2 m1.2 true
  let h3 := EventPlumbing.plus m2.1 m2.2 4
  Heap.queue h3 0

/-- C2 counterexample: with `menu_controls_enabled` toggles interleaved,
the gate bound to `(-1, LEFT)` emits two consecutive assertion edges, so
the polarity-alternation claim is false as stated. -/
theorem C2_alternation_counterexample :
    altCexQueue = [(-1, LEFT), (-1, LEFT)] ∧
      ¬ List.Chain' OppPolarity altCexQueue := by
  have hq : altCexQueue = [(-1, LEFT), (-1, LEFT)] := by decide
  refine ⟨hq, ?_⟩
  rw [hq]
  intro hch
  exact (List.chain'_cons.mp hch).1.1 (by constructor <;> decide)

/-! ### More heap/list helpers -/

theorem list_getD_set_self {α : Type} :
    ∀ (l : List α) (n : Nat) (a d : α), n < l.length → (l.set n a).getD n d = a
  | _ :: _, 0, _, _, _ => rfl
  | _ :: xs, n + 1, a, d, h => list_getD_set_self xs n a d (by simpa using h)

theorem list_getD_set_ne {α : Type} :
    ∀ (l : List α) (n m : Nat) (a d : α), n ≠ m → (l.set n a).getD m d = l.getD m d
  | [], _, _, _, _, _ => rfl
  | _ :: _, 0, 0, _, _, hne => absurd rfl hne
  | _ :: _, 0, _ + 1, _, _, _ => rfl
  | _ :: _, _ + 1, 0, _, _, _ => rfl
  | _ :: xs, n + 1, m + 1, a, d, hne =>
      list_getD_set_ne xs n m a d (fun he => hne (by omega))

theorem list_set_oob {α : Type} :
    ∀ (l : List α) (n : Nat) (a : α), l.length ≤ n → l.set n a = l
  | [], _, _, _ => rfl
  | _ :: _, 0, _, h => absurd h (by simp)
  | x :: xs, n + 1, a, h => by
      simp only [List.set]
      rw [list_set_oob xs n a (by simpa using h)]

theorem list_getD_oob {α : Type} :
    ∀ (l : List α) (n : Nat) (d : α), l.length ≤ n → l.getD n d = d
  | [], _, _, _ => rfl
  | _ :: _, 0, _, h => absurd h (by simp)
  | _ :: xs, n + 1, d, h => list_getD_oob xs n d (by simpa using h)

theorem list_get?_eq_some_getD {α : Type} :
    ∀ (l : List α) (n : Nat) (d : α), n < l.length → l.get? n = some (l.getD n d)
  | _ :: _, 0, _, _ => rfl
  | _ :: xs, n + 1, d, h => list_get?_eq_some_getD xs n d (by simpa using h)

theorem list_get?_oob {α : Type} :
    ∀ (l : List α) (n : Nat), l.length ≤ n → l.get? n = none
  | [], _, _ => rfl
  | _ :: _, 0, h => absurd h (by simp)
  | _ :: xs, n + 1, h => list_get?_oob xs n (by simpa using h)

/-- Two heaps with the same per-id valves (and equal lengths), forks and
queues are equal. -/
theorem heap_ext_valves (h1 h2 : Heap)
    (hlen : h1.valves.length = h2.valves.length)
    (hval : ∀ vid, h1.valve vid = h2.valve vid)
    (hf : h1.forks = h2.forks) (hq : h1.queues = h2.queues) : h1 = h2 := by
  obtain ⟨v1, f1, q1⟩ := h1
  obtain ⟨v2, f2, q2⟩ := h2
  simp only at hlen hf hq
  subst hf
  subst hq
  congr 1
  apply List.ext_get?_iff.mpr
  intro n
  by_cases hn : n < v1.length
  · rw [list_get?_eq_some_getD v1 n dValve hn,
      list_get?_eq_some_getD v2 n dValve (by omega)]
    exact congrArg some (hval n)
  · rw [list_get?_oob v1 n (by omega), list_get?_oob v2 n (by omega)]

theorem heap_valve_set_self (h : Heap) (vid : Nat) (v : ValveData)
    (hlt : vid < h.valves.length) : (h.setValve vid v).valve vid = v :=
  list_getD_set_self _ _ _ _ hlt

theorem heap_valve_set_ne (h : Heap) (vid wid : Nat) (v : ValveData)
    (hne : vid ≠ wid) : (h.setValve vid v).valve wid = h.valve wid :=
  list_getD_set_ne _ _ _ _ _ hne

theorem heap_setValve_oob (h : Heap) (vid : Nat) (v : ValveData)
    (hge : h.valves.length ≤ vid) : h.setValve vid v = h := by
  show ({ h with valves := h.valves.set vid v } : Heap) = h
  rw [list_set_oob _ _ _ hge]

theorem heap_setValve_length (h : Heap) (vid : Nat) (v : ValveData) :
    (h.setValve vid v).valves.length = h.valves.length := by
  show (h.valves.set vid v).length = h.valves.length
  exact List.length_set h.valves vid v

/-! ### C4: `transpose_player` is a group action on owner ids -/

/-- All valve ids fired by a schedule. -/
def schedVids (cs : List (List Nat × List Nat)) : List Nat :=
  cs.flatMap (·.2)

/-- Effect of one `PIDTransposer.visit` call: every output valve not yet in
`done` gets its pid transposed (once), `done` collects the outputs. -/
theorem pidStep_char (adder : Int) (outs : List Nat) :
    ∀ (done : List Nat) (h : Heap) (ins : List Nat),
      (pidTransposerStep adder done h ins outs).2.forks = h.forks ∧
      (pidTransposerStep adder done h ins outs).2.queues = h.queues ∧
      (pidTransposerStep adder done h ins outs).2.valves.length = h.valves.length ∧
      (∀ vid, (pidTransposerStep adder done h ins outs).2.valve vid =
        if vid ∈ outs ∧ vid ∉ done ∧ vid < h.valves.length
        then transposeValvePid adder (h.valve vid) else h.valve vid) ∧
      (∀ vid, vid ∈ (pidTransposerStep adder done h ins outs).1 ↔
        vid ∈ done ∨ vid ∈ outs) := by
  induction outs with
  | nil =>
      intro done h ins
      exact ⟨rfl, rfl, rfl, fun vid => rfl, fun vid => by
        constructor
        · exact Or.inl
        · rintro (hd | hd)
          · exact hd
          · cases hd⟩
  | cons x rest ih =>
      intro done h ins
      by_cases hxd : x ∈ done
      · have hstep : pidTransposerStep adder done h ins (x :: rest) =
            pidTransposerStep adder done h ins rest := by
          simp [pidTransposerStep, hxd]
        rw [hstep]
        obtain ⟨f1, q1, l1, v1, d1⟩ := ih done h ins
        refine ⟨f1, q1, l1, ?_, ?_⟩
        · intro vid
          rw [v1 vid]
          by_cases hvx : vid = x
          · subst hvx
            by_cases hvr : vid ∈ rest <;> simp [hvr, hxd]
          · simp [List.mem_cons, hvx]
        · intro vid
          rw [d1 vid]
          by_cases hvx : vid = x
          · subst hvx; simp [hxd]
          · simp [List.mem_cons, hvx]
      · have hstep : pidTransposerStep adder done h ins (x :: rest) =
            pidTransposerStep adder (done ++ [x])
              (h.setValve x (transposeValvePid adder (h.valve x))) ins rest := by
          simp [pidTransposerStep, hxd]
        rw [hstep]
        set h1 := h.setValve x (transposeValvePid adder (h.valve x)) with hh1
        obtain ⟨f1, q1, l1, v1, d1⟩ := ih (done ++ [x]) h1 ins
        have hlen1 : h1.valves.length = h.valves.length := heap_setValve_length h x _
        refine ⟨f1, q1, by rw [l1, hlen1], ?_, ?_⟩
        · intro vid
          rw [v1 vid]
          by_cases hvx : vid = x
          · subst hvx
            rw [if_neg (by simp :
              ¬(vid ∈ rest ∧ vid ∉ done ++ [vid] ∧ vid < h1.valves.length))]
            by_cases hlt : vid < h.valves.length
            · rw [if_pos ⟨List.mem_cons_self vid rest, hxd, hlt⟩]
              exact heap_valve_set_self h vid _ hlt
            · rw [if_neg (by intro hc; exact hlt hc.2.2)]
              rw [hh1, heap_setValve_oob h vid _ (by omega)]
          · have hv1 : h1.valve vid = h.valve vid :=
              heap_valve_set_ne h x vid _ (fun he => hvx he.symm)
            rw [hlen1, hv1]
            have hmem : (vid ∈ x :: rest) ↔ vid ∈ rest := by
              simp [List.mem_cons, hvx]
            have hmem2 : (vid ∉ done ++ [x]) ↔ vid ∉ done := by
              simp [List.mem_append, hvx]
            by_cases hc : vid ∈ rest ∧ vid ∉ done ∧ vid < h.valves.length
            · rw [if_pos ⟨hc.1, hmem2.mpr hc.2.1, hc.2.2⟩,
                if_pos ⟨hmem.mpr hc.1, hc.2.1, hc.2.2⟩]
            · rw [if_neg (by
                  intro hcc
                  exact hc ⟨hcc.1, hmem2.mp hcc.2.1, hcc.2.2⟩),
                if_neg (by
                  intro hcc
                  exact hc ⟨hmem.mp hcc.1, hcc.2.1, hcc.2.2⟩)]
        · intro vid
          rw [d1 vid]
          by_cases hvx : vid = x
          · subst hvx; simp
          · simp [List.mem_append, List.mem_cons, hvx]

/-- Effect of folding `PIDTransposer.visit` over a whole schedule. -/
theorem transposer_fold_char (adder : Int) (cs : List (List Nat × List Nat)) :
    ∀ (done : List Nat) (h : Heap),
      (cs.foldl (fun (sh : List Nat × Heap) c =>
        pidTransposerStep adder sh.1 sh.2 c.1 c.2) (done, h)).2.forks = h.forks ∧
      (cs.foldl (fun (sh : List Nat × Heap) c =>
        pidTransposerStep adder sh.1 sh.2 c.1 c.2) (done, h)).2.queues = h.queues ∧
      (cs.foldl (fun (sh : List Nat × Heap) c =>
        pidTransposerStep adder sh.1 sh.2 c.1 c.2) (done, h)).2.valves.length =
        h.valves.length ∧
      (∀ vid, (cs.foldl (fun (sh : List Nat × Heap) c =>
        pidTransposerStep adder sh.1 sh.2 c.1 c.2) (done, h)).2.valve vid =
        if vid ∈ schedVids cs ∧ vid ∉ done ∧ vid < h.valves.length
        then transposeValvePid adder (h.valve vid) else h.valve vid) ∧
      (∀ vid, vid ∈ (cs.foldl (fun (sh : List Nat × Heap) c =>
        pidTransposerStep adder sh.1 sh.2 c.1 c.2) (done, h)).1 ↔
        vid ∈ done ∨ vid ∈ schedVids cs) := by
  induction cs with
  | nil =>
      intro done h
      refine ⟨rfl, rfl, rfl, ?_, ?_⟩
      · intro vid; simp [schedVids]
      · intro vid; simp [schedVids]
  | cons c cs ih =>
      intro done h
      rw [List.foldl_cons]
      obtain ⟨sf, sq, sl, sv, sd⟩ := pidStep_char adder c.2 done h c.1
      obtain ⟨f1, q1, l1, v1, d1⟩ :=
        ih (pidTransposerStep adder done h c.1 c.2).1
          (pidTransposerStep adder done h c.1 c.2).2
      have hvids : ∀ vid, vid ∈ schedVids (c :: cs) ↔ vid ∈ c.2 ∨ vid ∈ schedVids cs := by
        intro vid; simp [schedVids]
      refine ⟨by rw [f1, sf], by rw [q1, sq], by rw [l1, sl], ?_, ?_⟩
      · intro vid
        rw [v1 vid, sl]
        by_cases hc2 : vid ∈ c.2
        · have hdone1 : vid ∈ (pidTransposerStep adder done h c.1 c.2).1 :=
            (sd vid).mpr (Or.inr hc2)
          rw [if_neg (by intro hcc; exact hcc.2.1 hdone1)]
          rw [sv vid]
          by_cases hdn : vid ∈ done
          · rw [if_neg (by intro hcc; exact hcc.2.1 hdn),
              if_neg (by intro hcc; exact hcc.2.1 hdn)]
          · by_cases hlt : vid < h.valves.length
            · rw [if_pos ⟨hc2, hdn, hlt⟩,
                if_pos ⟨(hvids vid).mpr (Or.inl hc2), hdn, hlt⟩]
            · rw [if_neg (by intro hcc; exact hlt hcc.2.2),
                if_neg (by intro hcc; exact hlt hcc.2.2)]
        · have hval1 : (pidTransposerStep adder done h c.1 c.2).2.valve vid = h.valve vid := by
            rw [sv vid, if_neg (by intro hcc; exact hc2 hcc.1)]
          have hdone1 : vid ∈ (pidTransposerStep adder done h c.1 c.2).1 ↔ vid ∈ done := by
            rw [sd vid]
            simp [hc2]
          rw [hval1]
          by_cases hcc : vid ∈ schedVids cs ∧ vid ∉ done ∧ vid < h.valves.length
          · rw [if_pos ⟨hcc.1, fun hd => hcc.2.1 (hdone1.mp hd), hcc.2.2⟩,
              if_pos ⟨(hvids vid).mpr (Or.inr hcc.1), hcc.2.1, hcc.2.2⟩]
          · rw [if_neg (by
                intro hc3
                exact hcc ⟨hc3.1, fun hd => hc3.2.1 (hdone1.mpr hd), hc3.2.2⟩),
              if_neg (by
                intro hc3
                rcases (hvids vid).mp hc3.1 with h4 | h4
                · exact hc2 h4
                · exact hcc ⟨h4, hc3.2.1, hc3.2.2⟩)]
      · intro vid
        rw [d1 vid, sd vid, hvids vid]
        tauto

/-- Characterization of `transpose_player`: every valve fired by the
traversal is transposed exactly once, everything else is untouched. -/
theorem transpose_player_char (h : Heap) (p : Plumbing) (adder : Int) :
    (EventPlumbing.transpose_player h p adder).forks = h.forks ∧
    (EventPlumbing.transpose_player h p adder).queues = h.queues ∧
    (EventPlumbing.transpose_player h p adder).valves.length = h.valves.length ∧
    ∀ vid, (EventPlumbing.transpose_player h p adder).valve vid =
      if vid ∈ schedVids (visitSchedule h.forks (plumbingPairs p) []) ∧
          vid < h.valves.length
      then transposeValvePid adder (h.valve vid) else h.valve vid := by
  have hpres : ∀ (s : List Nat) (h : Heap) (ins outs : List Nat),
      (pidTransposerStep adder s h ins outs).2.forks = h.forks :=
    fun s h ins outs => (pidStep_char adder outs s h ins).1
  have heq : EventPlumbing.transpose_player h p adder =
      ((visitSchedule h.forks (plumbingPairs p) []).foldl
        (fun (sh : List Nat × Heap) c =>
          pidTransposerStep adder sh.1 sh.2 c.1 c.2) ([], h)).2 := by
    show (visitEntries (pidTransposerStep adder) (plumbingPairs p) ([], [], h)).2.2 = _
    rw [visitEntries_eq_foldSchedule (pidTransposerStep adder) hpres
      (plumbingPairs p) [] [] h]
  obtain ⟨f1, q1, l1, v1, _⟩ :=
    transposer_fold_char adder (visitSchedule h.forks (plumbingPairs p) []) [] h
  rw [heq]
  refine ⟨f1, q1, l1, ?_⟩
  intro vid
  rw [v1 vid]
  by_cases hc : vid ∈ schedVids (visitSchedule h.forks (plumbingPairs p) []) ∧
      vid < h.valves.length
  · rw [if_pos ⟨hc.1, by simp, hc.2⟩, if_pos hc]
  · rw [if_neg (fun h3 => hc ⟨h3.1, h3.2.2⟩), if_neg hc]

/-- Composition law of the per-valve pid update: transposing by `a` and
then by `b` equals transposing once by `(a + b) mod MAX_PLAYERS`. -/
theorem transposeValvePid_comp (a b : Int) (v : ValveData) :
    transposeValvePid b (transposeValvePid a v) =
      transposeValvePid ((a + b) % MAX_PLAYERS) v := by
  simp only [transposeValvePid, MAX_PLAYERS]
  by_cases hp : (0 : Int) ≤ v.vopen.1
  · rw [if_pos hp]
    have hp1 : (0 : Int) ≤ v.vopen.1 - v.vopen.1 % 4 + (v.vopen.1 + a) % 4 := by
      omega
    rw [if_pos hp1, if_pos hp]
    have harith : v.vopen.1 - v.vopen.1 % 4 + (v.vopen.1 + a) % 4 -
          (v.vopen.1 - v.vopen.1 % 4 + (v.vopen.1 + a) % 4) % 4 +
          (v.vopen.1 - v.vopen.1 % 4 + (v.vopen.1 + a) % 4 + b) % 4 =
        v.vopen.1 - v.vopen.1 % 4 + (v.vopen.1 + (a + b) % 4) % 4 := by
      omega
    rw [harith]
  · rw [if_neg hp, if_neg hp, if_neg hp]

/-- Transposing by 0 leaves every owner id (the `open` binding) unchanged. -/
theorem transposeValvePid_zero_vopen (v : ValveData) :
    (transposeValvePid 0 v).vopen = v.vopen := by
  simp only [transposeValvePid, MAX_PLAYERS]
  by_cases hp : (0 : Int) ≤ v.vopen.1
  · rw [if_pos hp]
    have : v.vopen.1 - v.vopen.1 % 4 + (v.vopen.1 + 0) % 4 = v.vopen.1 := by
      omega
    rw [this]
  · rw [if_neg hp]

/-- C4. `transpose_player` is a group action on owner ids: transposing by
`a` and then by `b` yields exactly the state of transposing once by
`(a + b) mod MAX_PLAYERS`; each valve is either untouched or (when its
owner pid is non-negative) has its pid mapped by `transposeValvePid`,
which rotates the low bits modulo `MAX_PLAYERS` and preserves the high
bits; and `transpose(1)` then `transpose(2)` then `transpose(-3)` returns
every owner id to its original value. -/
theorem C4_transpose_player_group_action (h : Heap) (p : Plumbing) (a b : Int) :
    EventPlumbing.transpose_player (EventPlumbing.transpose_player h p a) p b =
      EventPlumbing.transpose_player h p ((a + b) % MAX_PLAYERS) ∧
    (∀ vid, (EventPlumbing.transpose_player h p a).valve vid = h.valve vid ∨
      (0 ≤ (h.valve vid).vopen.1 ∧
        (EventPlumbing.transpose_player h p a).valve vid =
          transposeValvePid a (h.valve vid))) ∧
    (∀ vid,
      ((EventPlumbing.transpose_player (EventPlumbing.transpose_player
          (EventPlumbing.transpose_player h p 1) p 2) p (-3)).valve vid).vopen =
        (h.valve vid).vopen) := by
  have hcomp : ∀ (a b : Int),
      EventPlumbing.transpose_player (EventPlumbing.transpose_player h p a) p b =
        EventPlumbing.transpose_player h p ((a + b) % MAX_PLAYERS) := by
    intro a b
    obtain ⟨fa, qa, la, va⟩ := transpose_player_char h p a
    obtain ⟨fb, qb, lb, vb⟩ :=
      transpose_player_char (EventPlumbing.transpose_player h p a) p b
    obtain ⟨fc, qc, lc, vc⟩ := transpose_player_char h p ((a + b) % MAX_PLAYERS)
    apply heap_ext_valves
    · rw [lb, la, lc]
    · intro vid
      rw [vb vid, vc vid, fa, la]
      by_cases hc : vid ∈ schedVids (visitSchedule h.forks (plumbingPairs p) []) ∧
          vid < h.valves.length
      · rw [if_pos hc, if_pos hc, va vid, if_pos hc, transposeValvePid_comp]
      · rw [if_neg hc, if_neg hc, va vid, if_neg hc]
    · rw [fb, fa, fc]
    · rw [qb, qa, qc]
  refine ⟨hcomp a b, ?_, ?_⟩
  · intro vid
    obtain ⟨_, _, _, va⟩ := transpose_player_char h p a
    rw [va vid]
    by_cases hc : vid ∈ schedVids (visitSchedule h.forks (plumbingPairs p) []) ∧
        vid < h.valves.length
    · rw [if_pos hc]
      by_cases hp0 : (0 : Int) ≤ (h.valve vid).vopen.1
      · exact Or.inr ⟨hp0, rfl⟩
      · left
        simp only [transposeValvePid]
        rw [if_neg hp0]
    · rw [if_neg hc]
      exact Or.inl rfl
  · intro vid
    rw [hcomp 1 2]
    have h3 : ((1 : Int) + 2) % MAX_PLAYERS = 3 := by decide
    rw [h3, hcomp 3 (-3)]
    have h0 : ((3 : Int) + -3) % MAX_PLAYERS = 0 := by decide
    rw [h0]
    obtain ⟨_, _, _, v0⟩ := transpose_player_char h p 0
    rw [v0 vid]
    by_cases hc : vid ∈ schedVids (visitSchedule h.forks (plumbingPairs p) []) ∧
        vid < h.valves.length
    · rw [if_pos hc, transposeValvePid_zero_vopen]
    · rw [if_neg hc]

/-! ### C6: clone independence with queue aliasing -/

theorem list_getD_append_left {α : Type} :
    ∀ (l l2 : List α) (i : Nat) (d : α), i < l.length →
      (l ++ l2).getD i d = l.getD i d
  | _ :: _, _, 0, _, _ => rfl
  | _ :: xs, l2, i + 1, d, h => list_getD_append_left xs l2 i d (by simpa using h)

theorem list_getD_append_right {α : Type} :
    ∀ (l l2 : List α) (i : Nat) (d : α), (l ++ l2).getD (l.length + i) d = l2.getD i d
  | [], l2, i, d => by simp
  | x :: xs, l2, i, d => by
      have := list_getD_append_right xs l2 i d
      simpa [List.length_cons, Nat.succ_add] using this

theorem list_set_same {α : Type} :
    ∀ (l : List α) (i : Nat) (d : α), l.set i (l.getD i d) = l
  | [], _, _ => rfl
  | _ :: _, 0, _ => rfl
  | x :: xs, i + 1, d => by
      show x :: xs.set i (xs.getD i d) = x :: xs
      rw [list_set_same xs i d]

theorem list_getD_map {α β : Type} (f : α → β) :
    ∀ (l : List α) (n : Nat) (d : α), (l.map f).getD n (f d) = f (l.getD n d)
  | [], _, _ => rfl
  | _ :: _, 0, _ => rfl
  | _ :: xs, n + 1, d => list_getD_map f xs n d

theorem heap_fork_set_self (h : Heap) (fid : Nat) (f : ForkData)
    (hlt : fid < h.forks.length) : (h.setFork fid f).fork fid = f :=
  list_getD_set_self _ _ _ _ hlt

theorem heap_fork_set_ne (h : Heap) (fid gid : Nat) (f : ForkData)
    (hne : fid ≠ gid) : (h.setFork fid f).fork gid = h.fork gid :=
  list_getD_set_ne _ _ _ _ _ hne

theorem heap_setFork_oob (h : Heap) (fid : Nat) (f : ForkData)
    (hge : h.forks.length ≤ fid) : h.setFork fid f = h := by
  show ({ h with forks := h.forks.set fid f } : Heap) = h
  rw [list_set_oob _ _ _ hge]

/-- Any visitor run preserves every heap projection its step preserves. -/
theorem visitEntries_preserves {σ α : Type} (π : Heap → α)
    (step : σ → Heap → List Nat → List Nat → σ × Heap)
    (hst : ∀ s h ins outs, π (step s h ins outs).2 = π h) :
    ∀ (pairs : List (Nat × Entry)) (st : ForkState × σ × Heap),
      π (visitEntries step pairs st).2.2 = π st.2.2 := by
  intro pairs
  induction pairs with
  | nil => intro st; rfl
  | cons pe rest ih =>
      intro st
      obtain ⟨fs, s, h⟩ := st
      obtain ⟨idx, e⟩ := pe
      rw [visitEntries, ih (visitEntry step idx e (fs, s, h))]
      cases e with
      | valve vid => exact hst s h [idx] [vid]
      | fork fid =>
          simp only [visitEntry]
          by_cases hfire : ((((lookupFS fs fid).getD [] ++ [idx]).length : Int) =
              -(h.fork fid).start_pressure + 1)
          · rw [if_pos hfire]
            exact hst s h _ _
          · rw [if_neg hfire]

/-- The fields of a valve other than `enabled`. -/
def valveCore (v : ValveData) : (Int × Int) × (Int × Int) × Nat × Int × Int :=
  (v.vopen, v.vclosed, v.evq, v.pressure, v.start_pressure)

theorem menuStep_core (onoff : Bool) (outs : List Nat) :
    ∀ (h : Heap),
      ((menuEnabledStep onoff () h [] outs).2.valves.map valveCore =
        h.valves.map valveCore) ∧
      (menuEnabledStep onoff () h [] outs).2.forks = h.forks ∧
      (menuEnabledStep onoff () h [] outs).2.queues = h.queues := by
  induction outs with
  | nil => intro h; exact ⟨rfl, rfl, rfl⟩
  | cons x rest ih =>
      intro h
      have hstep : ∀ hh : Heap, (menuEnabledStep onoff () hh [] (x :: rest)).2 =
          (menuEnabledStep onoff ()
            (if (hh.valve x).vopen.1 < 0
             then hh.setValve x { hh.valve x with enabled := onoff } else hh) [] rest).2 := by
        intro hh
        simp only [menuEnabledStep]
        by_cases hc : (hh.valve x).vopen.1 < 0 <;> simp [hc]
      rw [hstep h]
      by_cases hc : (h.valve x).vopen.1 < 0
      · rw [if_pos hc]
        obtain ⟨hv, hf, hq⟩ := ih (h.setValve x { h.valve x with enabled := onoff })
        refine ⟨?_, hf.trans rfl, hq.trans rfl⟩
        rw [hv]
        show (h.valves.set x _).map valveCore = _
        by_cases hlt : x < h.valves.length
        · rw [List.map_set]
          have hsame : valveCore { h.valve x with enabled := onoff } =
              (h.valves.map valveCore).getD x (valveCore dValve) := by
            rw [list_getD_map valveCore h.valves x dValve]
            rfl
          rw [hsame, list_set_same]
        · rw [list_set_oob _ _ _ (by omega)]
      · rw [if_neg hc]
        exact ih h

/-- `menu_controls_enabled` changes at most `enabled` flags: every other
valve field, the fork arena and the queues are untouched. -/
theorem menu_controls_core (h : Heap) (p : Plumbing) (onoff : Bool) :
    ((EventPlumbing.menu_controls_enabled h p onoff).1.valves.map valveCore =
      h.valves.map valveCore) ∧
    (EventPlumbing.menu_controls_enabled h p onoff).1.forks = h.forks ∧
    (EventPlumbing.menu_controls_enabled h p onoff).1.queues = h.queues := by
  refine ⟨?_, ?_, ?_⟩
  · exact visitEntries_preserves (fun h => h.valves.map valveCore) _
      (fun s h ins outs => (menuStep_core onoff outs h).1) (plumbingPairs p) _
  · exact visitEntries_preserves (fun h => h.forks) _
      (fun s h ins outs => (menuStep_core onoff outs h).2.1) (plumbingPairs p) _
  · exact visitEntries_preserves (fun h => h.queues) _
      (fun s h ins outs => (menuStep_core onoff outs h).2.2) (plumbingPairs p) _

/-- The valve ids a container entry can stimulate. -/
def entryVids (h : Heap) : Entry → List Nat
  | .valve vid => [vid]
  | .fork fid => (h.fork fid).outputs

/-- A run of `plus()`/`minus()` calls on one plumbing:
`(true, idx)` is `plus(idx)`, `(false, idx)` is `minus(idx)`. -/
def runStim (h : Heap) (p : Plumbing) : List (Bool × Nat) → Heap
  | [] => h
  | op :: ops =>
      runStim (if op.1 then EventPlumbing.plus h p op.2
               else EventPlumbing.minus h p op.2) p ops

theorem foldStim_char (φ : Heap → Nat → Heap)
    (hφv : ∀ h vid w, vid ≠ w → (φ h vid).valve w = h.valve w)
    (hφf : ∀ h vid, (φ h vid).forks = h.forks)
    (hφl : ∀ h vid, (φ h vid).valves.length = h.valves.length)
    (outs : List Nat) : ∀ h : Heap,
      (∀ w, w ∉ outs → (outs.foldl φ h).valve w = h.valve w) ∧
      (outs.foldl φ h).forks = h.forks ∧
      (outs.foldl φ h).valves.length = h.valves.length := by
  induction outs with
  | nil => intro h; exact ⟨fun w _ => rfl, rfl, rfl⟩
  | cons x rest ih =>
      intro h
      obtain ⟨iv, iff2, il⟩ := ih (φ h x)
      refine ⟨?_, iff2.trans (hφf h x), il.trans (hφl h x)⟩
      intro w hw
      rw [List.foldl_cons, iv w (fun hc => hw (List.mem_cons_of_mem x hc)),
        hφv h x w (fun he => hw (he ▸ List.mem_cons_self x rest))]

theorem valvePlusH_locality : ∀ (h : Heap) (vid w : Nat), vid ≠ w →
    (valvePlusH h vid).valve w = h.valve w := by
  intro h vid w hne
  show ((h.setValve vid _).setQueue _ _).valve w = h.valve w
  exact heap_valve_set_ne h vid w _ hne

theorem valveMinusH_locality : ∀ (h : Heap) (vid w : Nat), vid ≠ w →
    (valveMinusH h vid).valve w = h.valve w := by
  intro h vid w hne
  show ((h.setValve vid _).setQueue _ _).valve w = h.valve w
  exact heap_valve_set_ne h vid w _ hne

theorem forkPlusH_char (h : Heap) (fid : Nat) :
    (∀ w, w ∉ (h.fork fid).outputs → (forkPlusH h fid).valve w = h.valve w) ∧
    (∀ g, fid ≠ g → (forkPlusH h fid).fork g = h.fork g) ∧
    (∀ g, ((forkPlusH h fid).fork g).outputs = (h.fork g).outputs) ∧
    (forkPlusH h fid).valves.length = h.valves.length ∧
    (forkPlusH h fid).forks.length = h.forks.length := by
  obtain ⟨cv, cf, cl⟩ := foldStim_char valvePlusH valvePlusH_locality
    (fun _ _ => rfl) (fun h vid => heap_setValve_length h vid _)
    (h.fork fid).outputs h
  have hbody : ∀ (h1 : Heap), h1.forks = h.forks →
      (∀ g, fid ≠ g → (h1.setFork fid { h.fork fid with
          pressure := (h.fork fid).pressure + 1 }).fork g = h.fork g) ∧
      (∀ g, ((h1.setFork fid { h.fork fid with
          pressure := (h.fork fid).pressure + 1 }).fork g).outputs =
        (h.fork g).outputs) := by
    intro h1 hf1
    constructor
    · intro g hg
      rw [heap_fork_set_ne h1 fid g _ hg]
      show h1.forks.getD g dFork = h.forks.getD g dFork
      rw [hf1]
    · intro g
      by_cases hg : fid = g
      · subst hg
        by_cases hlt : fid < h1.forks.length
        · rw [heap_fork_set_self h1 fid _ hlt]
        · rw [heap_setFork_oob h1 fid _ (by omega)]
          show (h1.forks.getD fid dFork).outputs = (h.forks.getD fid dFork).outputs
          rw [hf1]
      · rw [heap_fork_set_ne h1 fid g _ hg]
        show (h1.forks.getD g dFork).outputs = (h.forks.getD g dFork).outputs
        rw [hf1]
  by_cases hp : (h.fork fid).pressure = 0
  · have hstep : forkPlusH h fid = ((h.fork fid).outputs.foldl valvePlusH h).setFork
        fid { h.fork fid with pressure := (h.fork fid).pressure + 1 } := by
      simp [forkPlusH, hp]
    rw [hstep]
    obtain ⟨bf, bo⟩ := hbody _ cf
    refine ⟨?_, bf, bo, ?_, ?_⟩
    · intro w hw
      show ((h.fork fid).outputs.foldl valvePlusH h).valve w = h.valve w
      exact cv w hw
    · show ((h.fork fid).outputs.foldl valvePlusH h).valves.length = _
      exact cl
    · show (((h.fork fid).outputs.foldl valvePlusH h).forks.set fid
        { h.fork fid with pressure := (h.fork fid).pressure + 1 }).length = h.forks.length
      rw [List.length_set]
      exact congrArg List.length cf
  · have hstep : forkPlusH h fid = h.setFork
        fid { h.fork fid with pressure := (h.fork fid).pressure + 1 } := by
      simp [forkPlusH, hp]
    rw [hstep]
    obtain ⟨bf, bo⟩ := hbody h rfl
    exact ⟨fun w _ => rfl, bf, bo, rfl, List.length_set h.forks fid _⟩

theorem forkMinusH_char (h : Heap) (fid : Nat) :
    (∀ w, w ∉ (h.fork fid).outputs → (forkMinusH h fid).valve w = h.valve w) ∧
    (∀ g, fid ≠ g → (forkMinusH h fid).fork g = h.fork g) ∧
    (∀ g, ((forkMinusH h fid).fork g).outputs = (h.fork g).outputs) ∧
    (forkMinusH h fid).valves.length = h.valves.length ∧
    (forkMinusH h fid).forks.length = h.forks.length := by
  have hforkg : ∀ g, fid ≠ g → (h.setFork fid { h.fork fid with
      pressure := (h.fork fid).pressure - 1 }).fork g = h.fork g :=
    fun g hg => heap_fork_set_ne h fid g _ hg
  have houtg : ∀ g, ((h.setFork fid { h.fork fid with
      pressure := (h.fork fid).pressure - 1 }).fork g).outputs = (h.fork g).outputs := by
    intro g
    by_cases hg : fid = g
    · subst hg
      by_cases hlt : fid < h.forks.length
      · rw [heap_fork_set_self h fid _ hlt]
      · rw [heap_setFork_oob h fid _ (by omega)]
    · rw [heap_fork_set_ne h fid g _ hg]
  have hlenf : (h.setFork fid { h.fork fid with
      pressure := (h.fork fid).pressure - 1 }).forks.length = h.forks.length :=
    List.length_set h.forks fid _
  obtain ⟨cv, cf, cl⟩ := foldStim_char valveMinusH valveMinusH_locality
    (fun _ _ => rfl) (fun h vid => heap_setValve_length h vid _)
    (h.fork fid).outputs
    (h.setFork fid { h.fork fid with pressure := (h.fork fid).pressure - 1 })
  by_cases hp : (h.fork fid).pressure - 1 = 0
  · have hstep : forkMinusH h fid = (h.fork fid).outputs.foldl valveMinusH
        (h.setFork fid { h.fork fid with pressure := (h.fork fid).pressure - 1 }) := by
      simp only [forkMinusH]
      rw [if_pos (by exact hp)]
    rw [hstep]
    have hcast : ∀ g, ((h.fork fid).outputs.foldl valveMinusH
        (h.setFork fid { h.fork fid with
          pressure := (h.fork fid).pressure - 1 })).fork g =
        (h.setFork fid { h.fork fid with
          pressure := (h.fork fid).pressure - 1 }).fork g := by
      intro g
      show ((h.fork fid).outputs.foldl valveMinusH
        (h.setFork fid { h.fork fid with
          pressure := (h.fork fid).pressure - 1 })).forks.getD g dFork = _
      rw [cf]
      rfl
    refine ⟨?_, ?_, ?_, ?_, ?_⟩
    · intro w hw
      exact cv w hw
    · intro g hg
      rw [hcast g]
      exact hforkg g hg
    · intro g
      rw [hcast g]
      exact houtg g
    · exact cl
    · have hlen2 := congrArg List.length cf
      rw [hlen2]
      exact hlenf
  · have hstep : forkMinusH h fid =
        h.setFork fid { h.fork fid with pressure := (h.fork fid).pressure - 1 } := by
      simp only [forkMinusH]
      rw [if_neg (by exact hp)]
    rw [hstep]
    exact ⟨fun w _ => rfl, hforkg, houtg, rfl, hlenf⟩

/-- Every valve an entry can stimulate satisfies `okV` and every fork it
touches satisfies `okF`. -/
def EntryOk (okV okF : Nat → Prop) (h : Heap) : Entry → Prop
  | .valve vid => okV vid
  | .fork fid => okF fid ∧ ∀ o ∈ (h.fork fid).outputs, okV o

theorem entryPlus_char (okV okF : Nat → Prop) (h : Heap) (e : Entry)
    (hok : EntryOk okV okF h e) :
    (∀ w, ¬ okV w → (entryPlus h e).valve w = h.valve w) ∧
    (∀ g, ¬ okF g → (entryPlus h e).fork g = h.fork g) ∧
    (∀ g, ((entryPlus h e).fork g).outputs = (h.fork g).outputs) ∧
    (entryPlus h e).valves.length = h.valves.length ∧
    (entryPlus h e).forks.length = h.forks.length := by
  cases e with
  | valve vid =>
      refine ⟨?_, fun g _ => rfl, fun g => rfl, heap_setValve_length h vid _, rfl⟩
      intro w hw
      exact valvePlusH_locality h vid w (fun he => hw (he ▸ hok))
  | fork fid =>
      obtain ⟨cv, cf, co, clv, clf⟩ := forkPlusH_char h fid
      exact ⟨fun w hw => cv w (fun hmem => hw (hok.2 w hmem)),
        fun g hg => cf g (fun he => hg (he ▸ hok.1)), co, clv, clf⟩

theorem entryMinus_char (okV okF : Nat → Prop) (h : Heap) (e : Entry)
    (hok : EntryOk okV okF h e) :
    (∀ w, ¬ okV w → (entryMinus h e).valve w = h.valve w) ∧
    (∀ g, ¬ okF g → (entryMinus h e).fork g = h.fork g) ∧
    (∀ g, ((entryMinus h e).fork g).outputs = (h.fork g).outputs) ∧
    (entryMinus h e).valves.length = h.valves.length ∧
    (entryMinus h e).forks.length = h.forks.length := by
  cases e with
  | valve vid =>
      refine ⟨?_, fun g _ => rfl, fun g => rfl, heap_setValve_length h vid _, rfl⟩
      intro w hw
      exact valveMinusH_locality h vid w (fun he => hw (he ▸ hok))
  | fork fid =>
      obtain ⟨cv, cf, co, clv, clf⟩ := forkMinusH_char h fid
      exact ⟨fun w hw => cv w (fun hmem => hw (hok.2 w hmem)),
        fun g hg => cf g (fun he => hg (he ▸ hok.1)), co, clv, clf⟩

theorem entriesFold_char (ψ : Heap → Entry → Heap) (okV okF : Nat → Prop)
    (hψ : ∀ h e, EntryOk okV okF h e →
      (∀ w, ¬ okV w → (ψ h e).valve w = h.valve w) ∧
      (∀ g, ¬ okF g → (ψ h e).fork g = h.fork g) ∧
      (∀ g, ((ψ h e).fork g).outputs = (h.fork g).outputs) ∧
      (ψ h e).valves.length = h.valves.length ∧
      (ψ h e).forks.length = h.forks.length)
    (entries : List Entry) :
    ∀ h, (∀ e ∈ entries, EntryOk okV okF h e) →
      (∀ w, ¬ okV w → (entries.foldl ψ h).valve w = h.valve w) ∧
      (∀ g, ¬ okF g → (entries.foldl ψ h).fork g = h.fork g) ∧
      (∀ g, ((entries.foldl ψ h).fork g).outputs = (h.fork g).outputs) ∧
      (entries.foldl ψ h).valves.length = h.valves.length ∧
      (entries.foldl ψ h).forks.length = h.forks.length := by
  induction entries with
  | nil => intro h _; exact ⟨fun w _ => rfl, fun g _ => rfl, fun g => rfl, rfl, rfl⟩
  | cons e rest ih =>
      intro h hall
      have hoke : EntryOk okV okF h e := hall e (List.mem_cons_self e rest)
      obtain ⟨sv, sf, so, slv, slf⟩ := hψ h e hoke
      have hallrest : ∀ e' ∈ rest, EntryOk okV okF (ψ h e) e' := by
        intro e' he'
        have h0 := hall e' (List.mem_cons_of_mem e he')
        cases e' with
        | valve vid => exact h0
        | fork fid =>
            refine ⟨h0.1, ?_⟩
            rw [so fid]
            exact h0.2
      obtain ⟨rv, rf, ro, rlv, rlf⟩ := ih (ψ h e) hallrest
      refine ⟨?_, ?_, ?_, rlv.trans slv, rlf.trans slf⟩
      · intro w hw
        rw [List.foldl_cons, rv w hw, sv w hw]
      · intro g hg
        rw [List.foldl_cons, rf g hg, sf g hg]
      · intro g
        rw [List.foldl_cons, ro g, so g]

/-- Every entry reachable from any container index satisfies `EntryOk`. -/
def PlumbOk (okV okF : Nat → Prop) (h : Heap) (p : Plumbing) : Prop :=
  ∀ idx, ∀ e ∈ (p.container.get idx).getD [], EntryOk okV okF h e

/-- A whole run of `plus()`/`minus()` calls only modifies the valves in
`okV` and the forks in `okF`; everything outside is untouched, and no
fork's output list ever changes. -/
theorem runStim_char (okV okF : Nat → Prop) :
    ∀ (ops : List (Bool × Nat)) (h : Heap) (p : Plumbing),
      PlumbOk okV okF h p →
      (∀ w, ¬ okV w → (runStim h p ops).valve w = h.valve w) ∧
      (∀ g, ¬ okF g → (runStim h p ops).fork g = h.fork g) ∧
      (∀ g, ((runStim h p ops).fork g).outputs = (h.fork g).outputs) ∧
      (runStim h p ops).valves.length = h.valves.length ∧
      (runStim h p ops).forks.length = h.forks.length := by
  intro ops
  induction ops with
  | nil => intro h p _; exact ⟨fun w _ => rfl, fun g _ => rfl, fun g => rfl, rfl, rfl⟩
  | cons op ops ih =>
      intro h p hok
      have hplus :
          (∀ w, ¬ okV w → (EventPlumbing.plus h p op.2).valve w = h.valve w) ∧
          (∀ g, ¬ okF g → (EventPlumbing.plus h p op.2).fork g = h.fork g) ∧
          (∀ g, ((EventPlumbing.plus h p op.2).fork g).outputs = (h.fork g).outputs) ∧
          (EventPlumbing.plus h p op.2).valves.length = h.valves.length ∧
          (EventPlumbing.plus h p op.2).forks.length = h.forks.length := by
        unfold EventPlumbing.plus
        cases hget : p.container.get op.2 with
        | none => exact ⟨fun w _ => rfl, fun g _ => rfl, fun g => rfl, rfl, rfl⟩
        | some entries =>
            exact entriesFold_char entryPlus okV okF (entryPlus_char okV okF) entries h
              (fun e he => hok op.2 e (by rw [hget]; exact he))
      have hminus :
          (∀ w, ¬ okV w → (EventPlumbing.minus h p op.2).valve w = h.valve w) ∧
          (∀ g, ¬ okF g → (EventPlumbing.minus h p op.2).fork g = h.fork g) ∧
          (∀ g, ((EventPlumbing.minus h p op.2).fork g).outputs = (h.fork g).outputs) ∧
          (EventPlumbing.minus h p op.2).valves.length = h.valves.length ∧
          (EventPlumbing.minus h p op.2).forks.length = h.forks.length := by
        unfold EventPlumbing.minus
        cases hget : p.container.get op.2 with
        | none => exact ⟨fun w _ => rfl, fun g _ => rfl, fun g => rfl, rfl, rfl⟩
        | some entries =>
            exact entriesFold_char entryMinus okV okF (entryMinus_char okV okF) entries h
              (fun e he => hok op.2 e (by rw [hget]; exact he))
      obtain ⟨sv, sf, so, slv, slf⟩ :
          (∀ w, ¬ okV w → (if op.1 then EventPlumbing.plus h p op.2
              else EventPlumbing.minus h p op.2).valve w = h.valve w) ∧
          (∀ g, ¬ okF g → (if op.1 then EventPlumbing.plus h p op.2
              else EventPlumbing.minus h p op.2).fork g = h.fork g) ∧
          (∀ g, ((if op.1 then EventPlumbing.plus h p op.2
              else EventPlumbing.minus h p op.2).fork g).outputs = (h.fork g).outputs) ∧
          (if op.1 then EventPlumbing.plus h p op.2
              else EventPlumbing.minus h p op.2).valves.length = h.valves.length ∧
          (if op.1 then EventPlumbing.plus h p op.2
              else EventPlumbing.minus h p op.2).forks.length = h.forks.length := by
        cases op.1
        · simpa using hminus
        · simpa using hplus
      have hok1 : PlumbOk okV okF
          (if op.1 then EventPlumbing.plus h p op.2
           else EventPlumbing.minus h p op.2) p := by
        intro idx e he
        have h0 := hok idx e he
        cases e with
        | valve vid => exact h0
        | fork fid =>
            refine ⟨h0.1, ?_⟩
            rw [so fid]
            exact h0.2
      obtain ⟨rv, rf, ro, rlv, rlf⟩ := ih
        (if op.1 then EventPlumbing.plus h p op.2
         else EventPlumbing.minus h p op.2) p hok1
      refine ⟨?_, ?_, ?_, rlv.trans slv, rlf.trans slf⟩
      · intro w hw
        rw [runStim, rv w hw, sv w hw]
      · intro g hg
        rw [runStim, rf g hg, sf g hg]
      · intro g
        rw [runStim, ro g, so g]

theorem find?_map_keyfst {α β : Type} (g : α → β) (idx : Nat) :
    ∀ (d : List (Nat × α)),
      ((d.map (fun kv => (kv.1, g kv.2))).find? (fun kv => kv.1 == idx)) =
        (d.find? (fun kv => kv.1 == idx)).map (fun kv => (kv.1, g kv.2)) := by
  intro d
  induction d with
  | nil => rfl
  | cons kv rest ih =>
      by_cases hk : kv.1 = idx
      · simp [List.find?, hk]
      · simp only [List.map_cons, List.find?]
        rw [show (kv.1 == idx) = false by simpa using hk]
        exact ih

theorem mapEntries_get (f : Entry → Entry) (c : Container) (idx : Nat) :
    (Container.mapEntries f c).get idx = (c.get idx).map (List.map f) := by
  cases c with
  | lst l =>
      show (l.map (List.map f)).get? idx = (l.get? idx).map (List.map f)
      exact List.get?_map (List.map f) l idx
  | dct d =>
      show ((d.map (fun kv => (kv.1, kv.2.map f))).find? (fun kv => kv.1 == idx)).map
          (·.2) = ((d.find? (fun kv => kv.1 == idx)).map (·.2)).map (List.map f)
      rw [find?_map_keyfst (List.map f) idx d]
      cases d.find? (fun kv => kv.1 == idx) <;> rfl

theorem cloneHeap_valve_hi (h : Heap) (vid : Nat) :
    (cloneHeap h).valve (vid + h.valves.length) = h.valve vid := by
  show (h.valves ++ h.valves).getD (vid + h.valves.length) dValve = h.valves.getD vid dValve
  rw [Nat.add_comm vid h.valves.length]
  exact list_getD_append_right h.valves h.valves vid dValve

theorem cloneHeap_fork_lo (h : Heap) (fid : Nat) (hlt : fid < h.forks.length) :
    (cloneHeap h).fork fid = h.fork fid := by
  show (h.forks ++ _).getD fid dFork = h.forks.getD fid dFork
  exact list_getD_append_left _ _ fid dFork hlt

theorem cloneHeap_fork_hi (h : Heap) (fid : Nat) :
    (cloneHeap h).fork (fid + h.forks.length) =
      { h.fork fid with
        outputs := (h.fork fid).outputs.map (· + h.valves.length) } := by
  show (h.forks ++ h.forks.map _).getD (fid + h.forks.length) dFork = _
  rw [Nat.add_comm fid h.forks.length,
    list_getD_append_right h.forks (h.forks.map _) fid dFork]
  exact list_getD_map (fun f => { f with
    outputs := f.outputs.map (· + h.valves.length) }) h.forks fid dFork

theorem cloneHeap_fork_hi_oob (h : Heap) (fid : Nat) (hge : h.forks.length ≤ fid) :
    (cloneHeap h).fork (fid + h.forks.length) = dFork := by
  show (h.forks ++ h.forks.map _).getD (fid + h.forks.length) dFork = dFork
  apply list_getD_oob
  simp only [List.length_append, List.length_map]
  omega

/-- Structural facts about `(clone h p)`: the clone's container is the
renamed one, the heap keeps the original queues and gets the block-copied
fork arena, and every valve differs from its block copy at most in
`enabled` (the clone pass may disable menu valves). -/
theorem clone_struct (h : Heap) (p : Plumbing) :
    (EventPlumbing.clone h p).2.container =
      Container.mapEntries (renameEntry h.valves.length h.forks.length) p.container ∧
    (EventPlumbing.clone h p).1.forks = (cloneHeap h).forks ∧
    (EventPlumbing.clone h p).1.queues = h.queues ∧
    (∀ i, valveCore ((EventPlumbing.clone h p).1.valve i) =
      valveCore ((cloneHeap h).valve i)) ∧
    (EventPlumbing.clone h p).1.valves.length = (cloneHeap h).valves.length := by
  unfold EventPlumbing.clone
  by_cases hmd : p.menuing_disabled
  · rw [if_pos hmd]
    set c : Plumbing := { p with
      container :=
        Container.mapEntries (renameEntry h.valves.length h.forks.length) p.container }
    obtain ⟨mv, mf, mq⟩ := menu_controls_core (cloneHeap h) c false
    refine ⟨rfl, mf, mq, ?_, ?_⟩
    · intro i
      have h1 := list_getD_map valveCore
        (EventPlumbing.menu_controls_enabled (cloneHeap h) c false).1.valves i dValve
      have h2 := list_getD_map valveCore (cloneHeap h).valves i dValve
      show valveCore
          ((EventPlumbing.menu_controls_enabled (cloneHeap h) c false).1.valves.getD
            i dValve) =
        valveCore ((cloneHeap h).valves.getD i dValve)
      rw [← h1, ← h2, mv]
    · have := congrArg List.length mv
      simpa using this
  · rw [if_neg hmd]
    exact ⟨rfl, rfl, rfl, fun i => rfl, rfl⟩

/-- C6. Cloning yields a fully disjoint gate graph that aliases the
original queues: stimulating the clone never changes any valve or fork of
the template and vice versa, while every clone valve's `evlist` reference
(`evq`) is identical to that of the corresponding template valve, and no
queue object is duplicated. -/
theorem C6_clone_independence_queue_aliasing (h : Heap) (p : Plumbing)
    (hwf : PlumbOk (fun vid => vid < h.valves.length)
      (fun fid => fid < h.forks.length) h p) :
    ((EventPlumbing.clone h p).1.queues = h.queues) ∧
    (∀ vid, ((EventPlumbing.clone h p).1.valve (vid + h.valves.length)).evq =
      (h.valve vid).evq) ∧
    (∀ ops w, w < h.valves.length →
      (runStim (EventPlumbing.clone h p).1 (EventPlumbing.clone h p).2 ops).valve w =
        (EventPlumbing.clone h p).1.valve w) ∧
    (∀ ops g, g < h.forks.length →
      (runStim (EventPlumbing.clone h p).1 (EventPlumbing.clone h p).2 ops).fork g =
        (EventPlumbing.clone h p).1.fork g) ∧
    (∀ ops w, h.valves.length ≤ w →
      (runStim (EventPlumbing.clone h p).1 p ops).valve w =
        (EventPlumbing.clone h p).1.valve w) ∧
    (∀ ops g, h.forks.length ≤ g →
      (runStim (EventPlumbing.clone h p).1 p ops).fork g =
        (EventPlumbing.clone h p).1.fork g) := by
  obtain ⟨hcont, hforks, hqueues, hcore, hlen⟩ := clone_struct h p
  have hforkeq : ∀ g, (EventPlumbing.clone h p).1.fork g = (cloneHeap h).fork g := by
    intro g
    show (EventPlumbing.clone h p).1.forks.getD g dFork = _
    rw [hforks]
    rfl
  refine ⟨hqueues, ?_, ?_, ?_, ?_, ?_⟩
  · intro vid
    have := hcore (vid + h.valves.length)
    rw [cloneHeap_valve_hi h vid] at this
    exact congrArg (fun t => t.2.2.1) this
  all_goals
    have hokclone : PlumbOk (fun w => h.valves.length ≤ w)
        (fun g => h.forks.length ≤ g) (EventPlumbing.clone h p).1
        (EventPlumbing.clone h p).2 := by
      intro idx e he
      rw [hcont, mapEntries_get] at he
      rcases hl : p.container.get idx with _ | l
      · rw [hl] at he
        cases he
      · rw [hl] at he
        simp only [Option.map_some', Option.getD_some] at he
        rcases List.mem_map.mp he with ⟨e0, _, rfl⟩
        cases e0 with
        | valve vid =>
            show h.valves.length ≤ vid + h.valves.length
            omega
        | fork fid =>
            refine ⟨by show h.forks.length ≤ fid + h.forks.length; omega, ?_⟩
            intro o ho
            rw [hforkeq] at ho
            by_cases hfl : fid < h.forks.length
            · rw [cloneHeap_fork_hi h fid] at ho
              simp only at ho
              rcases List.mem_map.mp ho with ⟨o0, _, rfl⟩
              omega
            · rw [cloneHeap_fork_hi_oob h fid (by omega)] at ho
              cases ho
  all_goals
    have hoktempl : PlumbOk (fun w => w < h.valves.length)
        (fun g => g < h.forks.length) (EventPlumbing.clone h p).1 p := by
      intro idx e he
      have h0 := hwf idx e he
      cases e with
      | valve vid => exact h0
      | fork fid =>
          refine ⟨h0.1, ?_⟩
          rw [hforkeq, cloneHeap_fork_lo h fid h0.1]
          exact h0.2
  · intro ops w hw
    exact (runStim_char _ _ ops _ _ hokclone).1 w (by omega)
  · intro ops g hg
    exact (runStim_char _ _ ops _ _ hokclone).2.1 g (by omega)
  · intro ops w hw
    exact (runStim_char _ _ ops _ _ hoktempl).1 w (by omega)
  · intro ops g hg
    exact (runStim_char _ _ ops _ _ hoktempl).2.1 g (by omega)

/-- A small concrete network (one AND-fork feeding one valve) used to
exercise the clone theorem. -/
def c6Heap : Heap :=
  { valves := [mkValve 0 UP 0 0], forks := [⟨-1, -1, [0]⟩], queues := [[]] }

def c6Plumb : Plumbing :=
  { container := .lst [[Entry.fork 0], [Entry.valve 0]],
    is_keyboard := false, menuing_disabled := true }

theorem C6_clone_independence_queue_aliasing_witness :
    ((EventPlumbing.clone c6Heap c6Plumb).1.queues = c6Heap.queues) ∧
    (((EventPlumbing.clone c6Heap c6Plumb).1.valve (0 + c6Heap.valves.length)).evq =
      (c6Heap.valve 0).evq) ∧
    ((runStim (EventPlumbing.clone c6Heap c6Plumb).1
        (EventPlumbing.clone c6Heap c6Plumb).2 [(true, 0), (true, 1)]).valve 0 =
      (EventPlumbing.clone c6Heap c6Plumb).1.valve 0) ∧
    ((runStim (EventPlumbing.clone c6Heap c6Plumb).1 c6Plumb
        [(true, 0), (true, 1)]).valve 1 =
      (EventPlumbing.clone c6Heap c6Plumb).1.valve 1) := by
  have hwf : PlumbOk (fun vid => vid < c6Heap.valves.length)
      (fun fid => fid < c6Heap.forks.length) c6Heap c6Plumb := by
    intro idx e he
    match idx with
    | 0 =>
        have : e = Entry.fork 0 := by
          simpa [c6Plumb, Container.get] using he
        subst this
        refine ⟨by decide, ?_⟩
        intro o ho
        have : o = 0 := by simpa [c6Heap, Heap.fork] using ho
        subst this
        decide
    | 1 =>
        have : e = Entry.valve 0 := by
          simpa [c6Plumb, Container.get] using he
        subst this
        show 0 < c6Heap.valves.length
        decide
    | n + 2 => simp [c6Plumb, Container.get] at he
  have h := C6_clone_independence_queue_aliasing c6Heap c6Plumb hwf
  exact ⟨h.1, h.2.1 0, h.2.2.1 [(true, 0), (true, 1)] 0 (by decide),
    h.2.2.2.2.1 [(true, 0), (true, 1)] 1 (by decide)⟩

/-! ### C5: serialization round-trip -/

def exceptOk {ε α : Type} : Except ε α → Bool
  | .ok _ => true
  | .error _ => false

def c5Blueprint : String := "1 2 = QUIT\nA0 = UP P1_UP"

def c5Net1 : Heap × Plumbing :=
  match EventPlumbing.init heap0 (.lst []) c5Blueprint with
  | .ok hp => hp
  | .error _ => (heap0, ⟨.lst [], false, false⟩)

/-- `repr(net)` of the network built from `c5Blueprint`. -/
def c5Repr : String := (EventPlumbing.reprStr c5Net1.1 c5Net1.2).getD ""

def c5Net2 : Heap × Plumbing :=
  match EventPlumbing.init heap0 (.lst []) c5Repr with
  | .ok hp => hp
  | .error _ => (heap0, ⟨.lst [], false, false⟩)

/-- Queue contents after stimulating a freshly built network with
`plus(1); plus(2); plus(33)` (index 33 is the A-axis-zero virtual index
`A0`). -/
def c5Stim (hp : Heap × Plumbing) : List (Int × Int) :=
  Heap.queue (runStim hp.1 hp.2 [(true, 1), (true, 2), (true, 33)]) 0

/-- C5. Round-trip: re-parsing `repr` of the network built from
`"1 2 = QUIT\nA0 = UP P1_UP"` yields a network that, stimulated with
`plus(1); plus(2); plus(A0)`, appends the identical semantic-event
sequence `[(-1,QUIT),(-1,UP),(0,UP)]`; both parses succeed, and the
serialized text is not byte-identical to the original blueprint. -/
theorem C5_repr_roundtrip :
    exceptOk (EventPlumbing.init heap0 (.lst []) c5Blueprint) = true ∧
    exceptOk (EventPlumbing.init heap0 (.lst []) c5Repr) = true ∧
    c5Stim c5Net2 = c5Stim c5Net1 ∧
    c5Stim c5Net1 = [(-1, QUIT), (-1, UP), (0, UP)] ∧
    c5Repr ≠ c5Blueprint := by
  refine ⟨by decide, by decide, by decide, by decide, by decide⟩

/-! ### The `UI` layer: `Controller`, `pump`, generic-button learning, `poll`

The shared object graph convention: all plumbings (keyboard and one per
controller) live in one `Heap`, and `ui.event_buffer` — the deque every
`EventValve` appends to — is queue `0` of that heap.  `pygame_events` (a
debug ring), sounds and the actual file write of `save_to_disk` are
side effects with no influence on the modelled state; `save_to_disk`
calls are counted in `saves`. -/

/-- `generic_buttons[button] = [total, left, right, up, down]`. -/
structure GenCounts where
  total : Int
  left : Int
  right : Int
  up : Int
  down : Int
deriving DecidableEq, Repr

structure Controller where
  plumb : Plumbing
  num_hats : Nat
  button_state : List Bool
  num_pressed : Int
  axis_state : List Bool
  generic_buttons : List (Int × GenCounts)
deriving DecidableEq, Repr

structure UIState where
  heap : Heap
  keyboard_plumbing : Plumbing
  key_state : List Bool
  controllers : List Controller
  last_valve_change_time : Int
  last_pygame_events_time : Int
  next_repeat_time : Int
  saves : Nat
deriving DecidableEq, Repr

/-- `ui.event_buffer` is queue `0` of the shared heap. -/
def UIState.event_buffer (ui : UIState) : List (Int × Int) := ui.heap.queue 0

def UIState.setBuffer (ui : UIState) (q : List (Int × Int)) : UIState :=
  { ui with heap := ui.heap.setQueue 0 q }

/-- `pygame.event.Event`s relevant to `UI.pump`. -/
inductive PyEvent where
  | quit
  | keydown (key : Nat)
  | keyup (key : Nat)
  | joybuttondown (joy : Nat) (button : Nat)
  | joybuttonup (joy : Nat) (button : Nat)
  | joyhatmotion (joy : Nat) (hat : Nat) (x y : Int)
  | joyaxismotion (joy : Nat) (axisN : Nat) (a : ℚ)
deriving DecidableEq, Repr

def lookupGB : List (Int × GenCounts) → Int → Option GenCounts
  | [], _ => none
  | (k, v) :: t, key => if k = key then some v else lookupGB t key

def setGB : List (Int × GenCounts) → Int → GenCounts → List (Int × GenCounts)
  | [], key, v => [(key, v)]
  | (k0, v0) :: t, key, v =>
      if k0 = key then (k0, v) :: t else (k0, v0) :: setGB t key v

def eraseGB : List (Int × GenCounts) → Int → List (Int × GenCounts)
  | [], _ => []
  | (k0, v0) :: t, key => if k0 = key then t else (k0, v0) :: eraseGB t key

/-- `Controller.pressed(button)`; the heap is threaded because
`plumbing.plus` stimulates shared valves. -/
def Controller.pressed (c : Controller) (h : Heap) (button : Nat) :
    Option (Controller × Heap) := do
  let bs ← c.button_state.get? button
  if bs = false then
    pure ({ c with
        button_state := c.button_state.set button true,
        num_pressed := c.num_pressed + 1 },
      EventPlumbing.plus h c.plumb button)
  else pure (c, h)

def Controller.released (c : Controller) (h : Heap) (button : Nat) :
    Option (Controller × Heap) := do
  let bs ← c.button_state.get? button
  if bs = true then
    pure ({ c with
        button_state := c.button_state.set button false,
        num_pressed := c.num_pressed - 1 },
      EventPlumbing.minus h c.plumb button)
  else pure (c, h)

/-- `UI._handle_axis(joy, axis, state)`; a bad `joy` or an axis beyond
`axis_state` is an uncaught `IndexError` (`none`). -/
def UI.handle_axis (ui : UIState) (joy : Nat) (axis : Nat) (state : Bool) :
    Option UIState := do
  let c ← ui.controllers.get? joy
  let cur ← c.axis_state.get? (axis - MAX_BUTTONS)
  if cur ≠ state then
    let c' := { c with axis_state := c.axis_state.set (axis - MAX_BUTTONS) state }
    let h' := if state then EventPlumbing.plus ui.heap c.plumb axis
              else EventPlumbing.minus ui.heap c.plumb axis
    pure { ui with controllers := ui.controllers.set joy c', heap := h' }
  else pure ui

/-- One iteration of the event loop of `UI.pump`. -/
def UI.pumpEvent (ui : UIState) (ev : PyEvent) : Option UIState :=
  match ev with
  | .quit =>
      some (ui.setBuffer (ui.event_buffer ++ [((-1 : Int), QUIT)]))
  | .keydown k =>
      match ui.key_state.get? k with
      | none => some ui
      | some st =>
          if st = false then
            some { ui with
              key_state := ui.key_state.set k true,
              heap := EventPlumbing.plus ui.heap ui.keyboard_plumbing k }
          else some ui
  | .keyup k =>
      match ui.key_state.get? k with
      | none => some ui
      | some st =>
          if st = true then
            some { ui with
              key_state := ui.key_state.set k false,
              heap := EventPlumbing.minus ui.heap ui.keyboard_plumbing k }
          else some ui
  | .joybuttondown joy button =>
      if button < MAX_BUTTONS then do
        let c ← ui.controllers.get? joy
        let (c', h') ← Controller.pressed c ui.heap button
        pure { ui with controllers := ui.controllers.set joy c', heap := h' }
      else some ui
  | .joybuttonup joy button =>
      if button < MAX_BUTTONS then do
        let c ← ui.controllers.get? joy
        let (c', h') ← Controller.released c ui.heap button
        pure { ui with controllers := ui.controllers.set joy c', heap := h' }
      else some ui
  | .joyhatmotion joy hat x y => do
      let axis := MAX_BUTTONS + hat * 6
      let u1 ← UI.handle_axis ui joy axis (decide (x < 0))
      let u2 ← UI.handle_axis u1 joy (axis + 1) (decide (x = 0))
      let u3 ← UI.handle_axis u2 joy (axis + 2) (decide (x > 0))
      let u4 ← UI.handle_axis u3 joy (axis + 3) (decide (y > 0))
      let u5 ← UI.handle_axis u4 joy (axis + 4) (decide (y = 0))
      UI.handle_axis u5 joy (axis + 5) (decide (y < 0))
  | .joyaxismotion joy axisN a => do
      let c ← ui.controllers.get? joy
      let axis := MAX_BUTTONS + c.num_hats * 6 + axisN * 3
      let u1 ← UI.handle_axis ui joy axis (decide (a < -(1 / 2 : ℚ)))
      let u2 ← UI.handle_axis u1 joy (axis + 1)
        (decide (-(1 / 2 : ℚ) ≤ a ∧ a ≤ (1 / 2 : ℚ)))
      UI.handle_axis u2 joy (axis + 2) (decide ((1 / 2 : ℚ) < a))

/-- The first loop of `UI._handle_generic_buttons`: collect the `active`
direction set and the `generic` list from the new buffer segment. -/
def UI.genericScan (ui : UIState) (seg : List (Int × Int)) :
    Option (List (Int × Int) × List (Int × Int)) :=
  seg.foldlM (fun st pe =>
    if pe.1 ≥ 0 then
      if pe.2 = LEFT ∨ pe.2 = RIGHT ∨ pe.2 = UP ∨ pe.2 = DOWN then
        some (st.1 ++ [pe], st.2)
      else if pe.2 ≥ GENERIC_BUTTON then do
        let c ← ui.controllers.get? (pe.1 / 2 ^ GENERIC_BUTTON_SHIFTER).toNat
        if c.num_pressed = 1 then some (st.1, st.2 ++ [pe]) else some st
      else some st
    else some st) ([], [])

inductive LearnOutcome where
  | stay
  | direction (evid : Int)
  | independent
deriving DecidableEq, Repr

/-- The classification step of `_handle_generic_buttons` after the counter
update: the `for i in (1,2,3,4)` loop unrolled.  The float comparisons
`gen[i]/count > .85` and `gen[i]/count < .5` are embedded as the exact
rational comparisons in cross-multiplied integer form (`count > 5 > 0`
whenever this is reached). -/
def learnDecision (gen : GenCounts) : LearnOutcome :=
  if gen.total > (MIN_LEARN_GENERIC_BUTTON_COUNT : Int) then
    if 100 * gen.left > 85 * gen.total then .direction LEFT
    else if 100 * gen.right > 85 * gen.total then .direction RIGHT
    else if 100 * gen.up > 85 * gen.total then .direction UP
    else if 100 * gen.down > 85 * gen.total then .direction DOWN
    else if 2 * gen.left < gen.total ∧ 2 * gen.right < gen.total ∧
        2 * gen.up < gen.total ∧ 2 * gen.down < gen.total then .independent
    else .stay
  else .stay

/-- `UI._learn_generic_button`: rewire the button's valve to `(pid, evid)`
(via `replace_valve` when a valve with that open event exists in the
plumbing, else via `ReplaceEvent`), drop the learning entry and request
persistence. -/
def UI.learn_generic_button (ui : UIState) (joy : Nat)
    (oldpid oldevid pid evid : Int) : Option UIState := do
  let c ← ui.controllers.get? joy
  let found := (EventPlumbing.visit (findEventStep (pid, evid)) ui.heap c.plumb none).1
  let oldkey : Int × Int :=
    (oldpid + (joy : Int) * 2 ^ GENERIC_BUTTON_SHIFTER, oldevid)
  let (h', p') :=
    match found with
    | some vid => EventPlumbing.replace_valve ui.heap c.plumb oldkey vid
    | none =>
        ((EventPlumbing.visit (replaceEventStep oldkey pid evid) ui.heap c.plumb ()).2,
         c.plumb)
  let _ ← lookupGB c.generic_buttons oldevid
  let c' := { c with
    plumb := p',
    generic_buttons := eraseGB c.generic_buttons oldevid }
  pure { ui with
    heap := h',
    controllers := ui.controllers.set joy c',
    saves := ui.saves + 1 }

def UI.handle_generic_buttons (ui : UIState) (num_events : Nat) :
    Option UIState := do
  let seg := ui.event_buffer.drop num_events
  let (active, generic) ← UI.genericScan ui seg
  generic.foldlM (fun ui2 pe => do
    let joy := (pe.1 / 2 ^ GENERIC_BUTTON_SHIFTER).toNat
    let pid := pe.1 % MAX_PLAYERS
    let c ← ui2.controllers.get? joy
    let gen0 := (lookupGB c.generic_buttons pe.2).getD ⟨0, 0, 0, 0, 0⟩
    let gen : GenCounts :=
      { total := gen0.total + 1,
        left := gen0.left + (if (pid, LEFT) ∈ active then 1 else 0),
        right := gen0.right + (if (pid, RIGHT) ∈ active then 1 else 0),
        up := gen0.up + (if (pid, UP) ∈ active then 1 else 0),
        down := gen0.down + (if (pid, DOWN) ∈ active then 1 else 0) }
    let c1 := { c with generic_buttons := setGB c.generic_buttons pe.2 gen }
    let ui3 := { ui2 with controllers := ui2.controllers.set joy c1 }
    match learnDecision gen with
    | .stay => pure ui3
    | .direction d => UI.learn_generic_button ui3 joy pid pe.2 pid d
    | .independent => UI.learn_generic_button ui3 joy pid pe.2 (-1) PASS) ui

/-- `UI.pump(events)` (at time `ticks`). -/
def UI.pump (ui : UIState) (ticks : Int) (events : List PyEvent) :
    Option UIState := do
  let num_events := ui.event_buffer.length
  let ui1 ← events.foldlM UI.pumpEvent ui
  if ui1.event_buffer.length > num_events then
    UI.handle_generic_buttons { ui1 with last_valve_change_time := ticks } num_events
  else pure ui1

/-- The discard loop of `UI.poll`: pop while the front event is a generic
button event. -/
def dropGenericList : List (Int × Int) → List (Int × Int)
  | [] => []
  | e :: rest =>
      if e.2 ≥ GENERIC_BUTTON ∨ e.2 ≤ -GENERIC_BUTTON then dropGenericList rest
      else e :: rest

def UI.dropGeneric (ui : UIState) : UIState :=
  ui.setBuffer (dropGenericList ui.event_buffer)

/-- `UI.repeat_output`: every plumbing gets a fresh `RepeatEvent` visitor. -/
def UI.repeat_output (ui : UIState) : UIState :=
  let h1 := (EventPlumbing.visit repeatEventStep ui.heap ui.keyboard_plumbing []).2
  let h2 := ui.controllers.foldl
    (fun h c => (EventPlumbing.visit repeatEventStep h c.plumb []).2) h1
  { ui with heap := h2 }

/-- The event-acquisition phase of `UI.poll`: pump fresh pygame events, or
maybe reinitialise the controller subsystem (`init_controllers` interacts
with the OS and is taken as an oracle `reinit`). -/
def UI.pollEvents (ui : UIState) (ticks reinit_time reinit_interval : Int)
    (events : List PyEvent) (reinit : UIState → UIState) : Option UIState :=
  if ui.event_buffer.length = 0 then
    if events.length > 0 then
      UI.pump { ui with last_pygame_events_time := ticks } ticks events
    else if ticks > ui.last_pygame_events_time + reinit_time then
      some (reinit { ui with
        last_pygame_events_time := ticks - reinit_time + reinit_interval })
    else some ui
  else some ui

/-- The final step of `UI.poll`: pop the front event, or report
`(-1, PASS)` when the buffer is empty. -/
def pollPop (ui3 : UIState) : (Int × Int) × UIState :=
  match ui3.event_buffer with
  | [] => ((-1, PASS), ui3)
  | e :: rest => (e, ui3.setBuffer rest)

/-- The delivery phase of `UI.poll`: discard generic events, maybe
auto-repeat, then pop the front event or report `(-1, PASS)`. -/
def UI.pollDeliver (ui1 : UIState) (autorepeat : Bool) (ticks : Int) :
    (Int × Int) × UIState :=
  pollPop
    (if (UI.dropGeneric ui1).event_buffer.length = 0 ∧ autorepeat = true ∧
        ticks > (UI.dropGeneric ui1).last_valve_change_time + REPEAT_INITIAL_DELAY ∧
        ticks > (UI.dropGeneric ui1).next_repeat_time then
      UI.repeat_output
        { UI.dropGeneric ui1 with next_repeat_time := ticks + REPEAT_DELAY }
    else UI.dropGeneric ui1)

def UI.poll (ui : UIState) (autorepeat : Bool)
    (reinit_time reinit_interval ticks : Int) (events : List PyEvent)
    (reinit : UIState → UIState) : Option ((Int × Int) × UIState) :=
  (UI.pollEvents ui ticks reinit_time reinit_interval events reinit).map
    (fun ui1 => UI.pollDeliver ui1 autorepeat ticks)

/-! ### C8/C9: generic-button learning scenarios

A minimal controller plumbing: valve 0 is the `P1_BUTTON_5` generic valve
`EventValve(0, GENERIC_BUTTON+5, event_buffer, 0)` (the
`GenericButtonsFixup(0)` pass leaves its pid `(0 & PLAYERS_MASK) + 0 = 0`),
valve 1 is the `P1_LEFT` valve `EventValve(0, LEFT, event_buffer, 0)`;
container index 5 is button 5, index `MAX_BUTTONS = 32` is the hat's
`x < 0` virtual axis (`A-`). -/

def genHeap : Heap :=
  { valves := [mkValve 0 (GENERIC_BUTTON + 5) 0 0, mkValve 0 LEFT 0 0],
    forks := [], queues := [[]] }

def genCont : Container :=
  .lst (List.replicate 5 [] ++ [[Entry.valve 0]] ++
    List.replicate 26 [] ++ [[Entry.valve 1]])

def genCtrl : Controller :=
  { plumb := ⟨genCont, false, false⟩, num_hats := 1,
    button_state := List.replicate 32 false, num_pressed := 0,
    axis_state := List.replicate 6 false, generic_buttons := [] }

def genUI : UIState :=
  { heap := genHeap, keyboard_plumbing := ⟨.lst [], false, false⟩,
    key_state := List.replicate 512 false, controllers := [genCtrl],
    last_valve_change_time := 0, last_pygame_events_time := 0,
    next_repeat_time := 0, saves := 0 }

/-- Press button 5 alone. -/
def pressIso : List PyEvent := [.joybuttondown 0 5]
/-- Release button 5. -/
def relIso : List PyEvent := [.joybuttonup 0 5]
/-- Press button 5 with the hat simultaneously pushed LEFT. -/
def pressCorr : List PyEvent := [.joybuttondown 0 5, .joyhatmotion 0 0 (-1) 0]
/-- Release button 5 and recenter the hat. -/
def relCorr : List PyEvent := [.joybuttonup 0 5, .joyhatmotion 0 0 0 0]

/-- A sequence of `UI.pump` calls (one per pygame event batch). -/
def pumpSeq (ui : UIState) (batches : List (List PyEvent)) : Option UIState :=
  batches.foldlM (fun s b => UI.pump s 0 b) ui

/-- The claim's scenario: 6 isolated presses, LEFT co-asserted on 5. -/
def c8CexBatches : List (List PyEvent) :=
  [pressIso, relIso] ++ (List.replicate 5 [pressCorr, relCorr]).flatten

/-- One more correlated press: 7 isolated presses, LEFT co-asserted on 6. -/
def c8Batches : List (List PyEvent) :=
  [pressIso, relIso] ++ (List.replicate 6 [pressCorr, relCorr]).flatten

/-- 6 isolated presses with no direction ever co-asserted. -/
def c9Batches : List (List PyEvent) :=
  (List.replicate 6 [pressIso, relIso]).flatten

/-- C8 counterexample. After 6 isolated presses of generic button 5 with
LEFT co-asserted on 5 of them, nothing is reclassified: the learning entry
records `[total, left] = [6, 5]` (5/6 ≈ 0.83 is below the 0.85 threshold,
`>` is strict), the valve still emits the generic event, the binding is
unchanged and no persistence request was made — refuting the claim that 5
out of 6 co-occurrences trigger the LEFT reclassification. -/
theorem C8_learning_counterexample :
    ((pumpSeq genUI c8CexBatches).map (fun s => s.saves) = some 0) ∧
    ((pumpSeq genUI c8CexBatches).map
        (fun s => s.controllers.map Controller.generic_buttons) =
      some [[(GENERIC_BUTTON + 5, ⟨6, 5, 0, 0, 0⟩)]]) ∧
    ((pumpSeq genUI c8CexBatches).map (fun s => (s.heap.valve 0).vopen) =
      some (0, GENERIC_BUTTON + 5)) ∧
    ((pumpSeq genUI c8CexBatches).map
        (fun s => s.controllers.map (fun c => c.plumb.container.get 5)) =
      some [some [Entry.valve 0]]) := by
  refine ⟨by decide, by decide, by decide, by decide⟩

/-- C8 amended. With 7 isolated presses and LEFT co-asserted on 6 of them
(6/7 ≈ 0.857 > 0.85), the button is reclassified to LEFT at the seventh
press: container index 5 is rewired to the existing `P1_LEFT` valve (valve
1, found by `FindEvent`, merged by `replace_valve`), the learning entry is
deleted, one persistence request is made, and a subsequent press of button
5 appends `(0, LEFT)` directly. -/
theorem C8_learning_amended :
    ((pumpSeq genUI (c8Batches ++ [pressIso])).map (fun s => s.saves) = some 1) ∧
    ((pumpSeq genUI (c8Batches ++ [pressIso])).map
        (fun s => s.controllers.map Controller.generic_buttons) = some [[]]) ∧
    ((pumpSeq genUI (c8Batches ++ [pressIso])).map
        (fun s => s.controllers.map (fun c => c.plumb.container.get 5)) =
      some [some [Entry.valve 1]]) ∧
    ((pumpSeq genUI (c8Batches ++ [pressIso])).map
        (fun s => s.event_buffer.drop (s.event_buffer.length - 1)) =
      some [(0, LEFT)]) := by
  refine ⟨by decide, by decide, by decide, by decide⟩

/-- C9 counterexample. After 6 isolated uncorrelated presses the button is
rewired — but its new open event is `(-1, PASS)`, where `PASS = 0` is the
"no event pending" marker, not a confirmation-class control: it differs
from CONFIRM, CANCEL and OPTIONS, and a subsequent press appends the inert
`(-1, PASS)` that every consumer reads as "queue empty". -/
theorem C9_independent_counterexample :
    ((pumpSeq genUI (c9Batches ++ [pressIso])).map
        (fun s => (s.heap.valve 0).vopen) = some (-1, PASS)) ∧
    ((pumpSeq genUI (c9Batches ++ [pressIso])).map
        (fun s => s.event_buffer.drop (s.event_buffer.length - 1)) =
      some [(-1, PASS)]) ∧
    PASS = 0 ∧ PASS ≠ CONFIRM ∧ PASS ≠ CANCEL ∧ PASS ≠ OPTIONS := by
  refine ⟨by decide, by decide, by decide, by decide, by decide, by decide⟩

/-- C9 amended. An unlabeled button pressed in isolation 6 times with no
direction ever co-asserted (all four proportions 0 < 0.5) is reclassified
exactly once as the inert non-player event `(-1, PASS)` (the `FindEvent
(-1, PASS)` lookup finds no valve, so `ReplaceEvent` rewrites the valve in
place): its learning entry is deleted, exactly one persistence request is
issued, and further presses neither relearn nor save again. -/
theorem C9_independent_amended :
    ((pumpSeq genUI (c9Batches ++ [pressIso, relIso, pressIso])).map
        (fun s => s.saves) = some 1) ∧
    ((pumpSeq genUI (c9Batches ++ [pressIso, relIso, pressIso])).map
        (fun s => s.controllers.map Controller.generic_buttons) = some [[]]) ∧
    ((pumpSeq genUI (c9Batches ++ [pressIso, relIso, pressIso])).map
        (fun s => ((s.heap.valve 0).vopen, (s.heap.valve 0).vclosed)) =
      some ((-1, PASS), (-1, PASS))) ∧
    ((pumpSeq genUI (c9Batches ++ [pressIso, relIso, pressIso])).map
        (fun s => s.event_buffer.drop (s.event_buffer.length - 1)) =
      some [(-1, PASS)]) := by
  refine ⟨by decide, by decide, by decide, by decide⟩

/-! ### C10: `poll` never returns a generic-button event -/

theorem dropGenericList_head :
    ∀ (l : List (Int × Int)) (e : Int × Int) (rest : List (Int × Int)),
      dropGenericList l = e :: rest →
      -GENERIC_BUTTON < e.2 ∧ e.2 < GENERIC_BUTTON := by
  intro l
  induction l with
  | nil => intro e rest h; cases h
  | cons x t ih =>
      intro e rest h
      unfold dropGenericList at h
      by_cases hg : x.2 ≥ GENERIC_BUTTON ∨ x.2 ≤ -GENERIC_BUTTON
      · rw [if_pos hg] at h
        exact ih e rest h
      · rw [if_neg hg] at h
        cases h
        push_neg at hg
        simp only [GENERIC_BUTTON] at hg ⊢
        omega

/-- Queues only grow by REPEATABLE events (stated for the event buffer,
queue `0`). -/
def QGrow (h h' : Heap) : Prop :=
  ∀ x ∈ h'.queue 0, x ∈ h.queue 0 ∨ x ∈ REPEATABLE

theorem qgrow_refl (h : Heap) : QGrow h h := fun _ hx => Or.inl hx

theorem qgrow_trans {h1 h2 h3 : Heap} (a : QGrow h1 h2) (b : QGrow h2 h3) :
    QGrow h1 h3 := fun x hx =>
  match b x hx with
  | Or.inl hx2 => a x hx2
  | Or.inr hr => Or.inr hr

theorem setQueue_qgrow (h : Heap) (qid : Nat) (v : Int × Int)
    (hv : v ∈ REPEATABLE) :
    QGrow h (h.setQueue qid (h.queue qid ++ [v])) := by
  intro x hx
  by_cases hq : qid = 0
  · subst hq
    by_cases hl : 0 < h.queues.length
    · have he : (h.setQueue 0 (h.queue 0 ++ [v])).queue 0 = h.queue 0 ++ [v] :=
        list_getD_set_self h.queues 0 _ [] hl
      rw [he] at hx
      rcases List.mem_append.mp hx with h1 | h1
      · exact Or.inl h1
      · rw [List.mem_singleton.mp h1]
        exact Or.inr hv
    · have hnil : h.queues = [] := List.length_eq_zero.mp (by omega)
      have he : (h.setQueue 0 (h.queue 0 ++ [v])).queue 0 = h.queue 0 := by
        show (h.queues.set 0 _).getD 0 [] = h.queues.getD 0 []
        rw [hnil]
        rfl
      rw [he] at hx
      exact Or.inl hx
  · have he : (h.setQueue qid (h.queue qid ++ [v])).queue 0 = h.queue 0 :=
      list_getD_set_ne h.queues qid 0 _ [] hq
    rw [he] at hx
    exact Or.inl hx

theorem repeatEventStep_qgrow (st : List Nat) (h : Heap) (ins outs : List Nat) :
    QGrow h (repeatEventStep st h ins outs).2 := by
  unfold repeatEventStep
  induction outs generalizing st h with
  | nil => exact qgrow_refl h
  | cons o t ih =>
      rw [List.foldl_cons]
      by_cases hcond : (h.valve o).pressure > 0 ∧ (h.valve o).vopen ∈ REPEATABLE ∧
          o ∉ st
      · have hstep : QGrow h
            (h.setQueue (h.valve o).evq
              (h.queue (h.valve o).evq ++ [(h.valve o).vopen])) :=
          setQueue_qgrow h _ _ hcond.2.1
        refine qgrow_trans hstep ?_
        have := ih (st ++ [o])
          (h.setQueue (h.valve o).evq (h.queue (h.valve o).evq ++ [(h.valve o).vopen]))
        simpa [hcond] using this
      · have := ih st h
        simpa [hcond] using this

theorem visitEntries_qgrow {σ : Type}
    (step : σ → Heap → List Nat → List Nat → σ × Heap)
    (hstep : ∀ s h ins outs, QGrow h (step s h ins outs).2) :
    ∀ (pairs : List (Nat × Entry)) (fs : ForkState) (s : σ) (h : Heap),
      QGrow h (visitEntries step pairs (fs, s, h)).2.2 := by
  intro pairs
  induction pairs with
  | nil => intro fs s h; exact qgrow_refl h
  | cons p rest ih =>
      intro fs s h
      obtain ⟨idx, e⟩ := p
      have h1 : QGrow h (visitEntry step idx e (fs, s, h)).2.2 := by
        cases e with
        | valve vid => exact hstep s h [idx] [vid]
        | fork fid =>
            simp only [visitEntry]
            by_cases hsp : (((((lookupFS fs fid).getD []) ++ [idx]).length : Int) =
                -(h.fork fid).start_pressure + 1)
            · rw [if_pos hsp]
              exact hstep s h _ _
            · rw [if_neg hsp]
              exact qgrow_refl h
      exact qgrow_trans h1 (ih _ _ _)

theorem repeat_output_qgrow (ui : UIState) :
    QGrow ui.heap (UI.repeat_output ui).heap := by
  have hk : QGrow ui.heap
      ((EventPlumbing.visit repeatEventStep ui.heap ui.keyboard_plumbing []).2) :=
    visitEntries_qgrow repeatEventStep repeatEventStep_qgrow _ _ _ _
  have hrec : ∀ (cs : List Controller) (h : Heap),
      QGrow h (cs.foldl
        (fun h c => (EventPlumbing.visit repeatEventStep h c.plumb []).2) h) := by
    intro cs
    induction cs with
    | nil => intro h; exact qgrow_refl h
    | cons c t ih =>
        intro h
        rw [List.foldl_cons]
        refine qgrow_trans ?_ (ih _)
        exact visitEntries_qgrow repeatEventStep repeatEventStep_qgrow _ _ _ _
  exact qgrow_trans hk (hrec ui.controllers _)

theorem repeatable_bound :
    ∀ x ∈ REPEATABLE, -GENERIC_BUTTON < x.2 ∧ x.2 < GENERIC_BUTTON := by decide

theorem dropGeneric_event_buffer (ui : UIState) :
    (UI.dropGeneric ui).event_buffer = dropGenericList ui.event_buffer := by
  unfold UI.dropGeneric UIState.setBuffer UIState.event_buffer Heap.setQueue
    Heap.queue
  rcases hq : ui.heap.queues with _ | ⟨q, qs⟩ <;> rfl

theorem pollPop_bound (ui3 : UIState)
    (hhead : ∀ e rest, ui3.event_buffer = e :: rest →
      -GENERIC_BUTTON < e.2 ∧ e.2 < GENERIC_BUTTON) :
    -GENERIC_BUTTON < (pollPop ui3).1.2 ∧ (pollPop ui3).1.2 < GENERIC_BUTTON := by
  unfold pollPop
  cases hb : ui3.event_buffer with
  | nil =>
      exact ⟨(by decide : -GENERIC_BUTTON < PASS),
        (by decide : PASS < GENERIC_BUTTON)⟩
  | cons e rest => exact hhead e rest hb

theorem pollDeliver_bound (ui1 : UIState) (autorepeat : Bool) (ticks : Int) :
    -GENERIC_BUTTON < (UI.pollDeliver ui1 autorepeat ticks).1.2 ∧
    (UI.pollDeliver ui1 autorepeat ticks).1.2 < GENERIC_BUTTON := by
  unfold UI.pollDeliver
  by_cases hc : (UI.dropGeneric ui1).event_buffer.length = 0 ∧ autorepeat = true ∧
      ticks > (UI.dropGeneric ui1).last_valve_change_time + REPEAT_INITIAL_DELAY ∧
      ticks > (UI.dropGeneric ui1).next_repeat_time
  · rw [if_pos hc]
    refine pollPop_bound _ ?_
    intro e rest hb
    have hempty0 : (UI.dropGeneric ui1).event_buffer = [] :=
      List.length_eq_zero.mp hc.1
    have hgrow := repeat_output_qgrow
      { UI.dropGeneric ui1 with next_repeat_time := ticks + REPEAT_DELAY }
    have he : e ∈ (UI.repeat_output { UI.dropGeneric ui1 with
        next_repeat_time := ticks + REPEAT_DELAY }).event_buffer := by
      rw [show (UI.repeat_output { UI.dropGeneric ui1 with
          next_repeat_time := ticks + REPEAT_DELAY }).event_buffer = e :: rest
        from hb]
      exact List.mem_cons_self e rest
    rcases hgrow e he with h0 | hr
    · have h0' : e ∈ (UI.dropGeneric ui1).event_buffer := h0
      rw [hempty0] at h0'
      cases h0'
    · exact repeatable_bound e hr
  · rw [if_neg hc]
    refine pollPop_bound _ ?_
    intro e rest hb
    refine dropGenericList_head ui1.event_buffer e rest ?_
    rw [← dropGeneric_event_buffer]
    exact hb

/-- C10. `UI.poll` never returns a generic-button event, in any state and
any mode: whatever the pending buffer, pygame events, timing parameters or
controller-reinit behaviour, the discard loop runs after `pump` and
`repeat_output` only re-emits REPEATABLE direction events, so every
returned `(pid, evid)` satisfies `-GENERIC_BUTTON < evid <
GENERIC_BUTTON`. -/
theorem C10_poll_no_generic_events (ui : UIState) (autorepeat : Bool)
    (reinit_time reinit_interval ticks : Int) (events : List PyEvent)
    (reinit : UIState → UIState) :
    match UI.poll ui autorepeat reinit_time reinit_interval ticks events reinit with
    | none => True
    | some ((_, evid), _) => -GENERIC_BUTTON < evid ∧ evid < GENERIC_BUTTON := by
  unfold UI.poll
  cases hpe : UI.pollEvents ui ticks reinit_time reinit_interval events reinit with
  | none => exact trivial
  | some ui1 =>
      show -GENERIC_BUTTON < (UI.pollDeliver ui1 autorepeat ticks).1.2 ∧
        (UI.pollDeliver ui1 autorepeat ticks).1.2 < GENERIC_BUTTON
      exact pollDeliver_bound ui1 autorepeat ticks

end PydanceUI
